import Mathlib

/-!
# meilisearch-go: the unified error type (`error.go`)

A shallow embedding of `error.go` and theorems about it.

Modelling conventions.

* A Go `string` is a Lean `String` (the valid UTF-8 strings); a `[]byte` body is
  modelled the same way, so `string(body)` is the identity.
* A Go slice is `Slice α := Option (List α)`: `none` is the `nil` slice and
  `some xs` a non-nil slice holding `xs`.
* `int` and `ErrCode` are `Int`; no arithmetic is performed on them.
* A Go `error` value is a `GoError`, identified with the text its `Error()`
  method returns; a `nil` error is `none`.
* Go randomises the order in which `range` visits a map, so `namedSprintf` and
  `Error.Error` take the visiting order as an explicit argument.
* A method with pointer receiver `*Error` is a function from the state of the
  receiver before the call to its state after the call; `Heap` and
  `Error.WithErrCodeAt` add the pointer itself where the returned pointer matters.
* A run-time panic is the result `none`.
* The request executor and the async operation tracker are not among the source
  files: `handleStatusCode` and `WaitFor` are modelled from the specification.
-/

namespace Meilisearch

set_option linter.dupNamespace false
set_option maxRecDepth 100000

/-! ## Go runtime and library functions used by `error.go` -/

/-- A Go slice: `none` is the `nil` slice, `some xs` a non-nil slice. -/
abbrev Slice (α : Type) := Option (List α)

/-- A Go `error` value, identified with the text returned by its `Error()` method. -/
structure GoError where
  text : String
  deriving DecidableEq, Repr

/-- The loop of `strings.Replace` for a non-empty `old`, on lists of characters:
`skip` counts the characters of a matched occurrence of `old` still to be dropped. -/
def replaceLoop (old new : List Char) : Nat → List Char → List Char
  | _, [] => []
  | skip + 1, _ :: s => replaceLoop old new skip s
  | 0, c :: s =>
    if old <+: c :: s then new ++ replaceLoop old new (old.length - 1) s
    else c :: replaceLoop old new 0 s

/-- `strings.ReplaceAll(s, old, new)` on lists of characters: the non-overlapping
occurrences of `old`, found from left to right, are replaced by `new`; an empty
`old` matches before every character and at the end. -/
def replaceAllChars (s old new : List Char) : List Char :=
  match old with
  | [] => new ++ s.flatMap (fun c => c :: new)
  | _ :: _ => replaceLoop old new 0 s

/-- `strings.ReplaceAll(s, old, new)`. -/
def strings.ReplaceAll (s old new : String) : String :=
  String.mk (replaceAllChars s.data old.data new.data)

/-- `strings.Contains(s, substr)` as a proposition. -/
def strings.Contains (s substr : String) : Prop := substr.data <:+: s.data

instance (s substr : String) : Decidable (strings.Contains s substr) := by
  unfold strings.Contains; infer_instance

/-- A value stored in the `map[string]interface{}` that `Error.Error` builds. -/
inductive Value where
  | str (s : String)
  | int (n : Int)
  | ints (xs : Slice Int)
  deriving DecidableEq, Repr

/-- `fmt.Sprintf("%v", val)` for the three dynamic types `Error.Error` passes:
a string is printed as it is, an `int` in decimal, and a `[]int` as its elements in
decimal separated by single spaces inside square brackets (`[]` for the nil slice). -/
def fmt.Sprintf_v : Value → String
  | .str s => s
  | .int n => n.repr
  | .ints xs => "[" ++ " ".intercalate ((xs.getD []).map Int.repr) ++ "]"

/-- `errors.Wrap(err, message).Error()` of `github.com/pkg/errors` for a non-nil
`err`: the message, a colon and a space, then the text of the wrapped error. -/
def errors.Wrap_Error (err : GoError) (message : String) : String :=
  message ++ ": " ++ err.text

/-! ## `ErrCode` and its message templates -/

/-- `type ErrCode int`. -/
abbrev ErrCode := Int

/-- `ErrCodeUnknown ErrCode = 0` (first line of the const block, `iota = 0`). -/
def ErrCodeUnknown : ErrCode := 0
/-- `ErrCodeMarshalRequest ErrCode = iota + 1` on the second line of the block,
where `iota = 1`. -/
def ErrCodeMarshalRequest : ErrCode := 1 + 1
/-- Third line: the expression `iota + 1` is repeated with `iota = 2`. -/
def ErrCodeResponseUnmarshalBody : ErrCode := 2 + 1
/-- Fourth line, `iota = 3`. -/
def MeilisearchApiError : ErrCode := 3 + 1
/-- Fifth line, `iota = 4`. -/
def MeilisearchApiErrorWithoutMessage : ErrCode := 4 + 1
/-- Sixth line, `iota = 5`. -/
def MeilisearchTimeoutError : ErrCode := 5 + 1
/-- Seventh line, `iota = 6`. -/
def MeilisearchCommunicationError : ErrCode := 6 + 1

def rawStringCtx : String :=
  "(path \"${method} ${endpoint}\" with method \"${function}\")"
def rawStringMarshalRequest : String :=
  "unable to marshal body from request: '${request}'"
def rawStringResponseUnmarshalBody : String :=
  "unable to unmarshal body from response: '${response}' status code: ${statusCode}"
def rawStringMeilisearchApiError : String :=
  "unaccepted status code found: ${statusCode} expected: ${statusCodeExpected}, MeilisearchApiError Message: ${message}, ErrorCode: ${errorCode}, ErrorType: ${errorType}, ErrorLink: ${errorLink}"
def rawStringMeilisearchApiErrorWithoutMessage : String :=
  "unaccepted status code found: ${statusCode} expected: ${statusCodeExpected}, MeilisearchApiError Message: ${message}"
def rawStringMeilisearchTimeoutError : String :=
  "MeilisearchTimeoutError"
def rawStringMeilisearchCommunicationError : String :=
  "MeilisearchCommunicationError unable to execute request"

/-- `func (e ErrCode) rawMessage() string`. -/
def ErrCode.rawMessage (e : ErrCode) : String :=
  if e = ErrCodeMarshalRequest then
    rawStringMarshalRequest ++ " " ++ rawStringCtx
  else if e = ErrCodeResponseUnmarshalBody then
    rawStringResponseUnmarshalBody ++ " " ++ rawStringCtx
  else if e = MeilisearchApiError then
    rawStringMeilisearchApiError ++ " " ++ rawStringCtx
  else if e = MeilisearchApiErrorWithoutMessage then
    rawStringMeilisearchApiErrorWithoutMessage ++ " " ++ rawStringCtx
  else if e = MeilisearchTimeoutError then
    rawStringMeilisearchTimeoutError ++ " " ++ rawStringCtx
  else if e = MeilisearchCommunicationError then
    rawStringMeilisearchCommunicationError ++ " " ++ rawStringCtx
  else
    rawStringCtx

/-! ## The `Error` structure -/

/-- `type meilisearchApiMessage struct`; the zero value has four empty strings. -/
structure meilisearchApiMessage where
  Message : String := ""
  ErrorCode : String := ""
  ErrorType : String := ""
  ErrorLink : String := ""
  deriving DecidableEq, Repr

/-- `type Error struct`; the defaults are the Go zero values. -/
structure Error where
  Endpoint : String := ""
  Method : String := ""
  Function : String := ""
  RequestToString : String := ""
  ResponseToString : String := ""
  MeilisearchApiMessage : meilisearchApiMessage := {}
  StatusCode : Int := 0
  StatusCodeExpected : Slice Int := none
  rawMessage : String := ""
  OriginError : Option GoError := none
  ErrCode : ErrCode := 0
  deriving DecidableEq, Repr

/-- `func namedSprintf(format string, params map[string]interface{}) string`, where
`visited` lists the entries of `params` in the order the `range` loop yields them. -/
def namedSprintf (format : String) (visited : List (String × Value)) : String :=
  visited.foldl
    (fun format kv => strings.ReplaceAll format ("$\x7b" ++ kv.1 ++ "\x7d") (fmt.Sprintf_v kv.2))
    format

/-- The map literal that `Error.Error` passes to `namedSprintf`, as the list of its
eleven entries in the order they are written in the source. -/
def Error.params (e : Error) : List (String × Value) :=
  [ ("endpoint", .str e.Endpoint),
    ("method", .str e.Method),
    ("function", .str e.Function),
    ("request", .str e.RequestToString),
    ("response", .str e.ResponseToString),
    ("statusCodeExpected", .ints e.StatusCodeExpected),
    ("statusCode", .int e.StatusCode),
    ("message", .str e.MeilisearchApiMessage.Message),
    ("errorCode", .str e.MeilisearchApiMessage.ErrorCode),
    ("errorType", .str e.MeilisearchApiMessage.ErrorType),
    ("errorLink", .str e.MeilisearchApiMessage.ErrorLink) ]

/-- `visited` is an order in which a `range` loop can visit the map `params`:
every entry exactly once. -/
def IsRangeOrder (params visited : List (String × Value)) : Prop :=
  visited.Perm params

instance (params visited : List (String × Value)) : Decidable (IsRangeOrder params visited) := by
  unfold IsRangeOrder; infer_instance

/-- `func (e Error) Error() string`, the map being visited in the order `visited`. -/
def Error.Error (e : Error) (visited : List (String × Value)) : String :=
  let message := namedSprintf e.rawMessage visited
  match e.OriginError with
  | some origin => errors.Wrap_Error origin message
  | none => message

/-- `func (e *Error) WithErrCode(err ErrCode, errs ...error) *Error` as a function on
the state of `*e`: `errs` is the variadic slice (`none` when the call passes no cause),
the result is `none` when `errs[0]` is out of range. -/
def Error.WithErrCode (e : Meilisearch.Error) (err : Meilisearch.ErrCode)
    (errs : Slice (Option GoError)) : Option Meilisearch.Error :=
  match errs with
  | some [] => none
  | some (origin :: _) =>
    some { e with OriginError := origin, rawMessage := err.rawMessage, ErrCode := err }
  | none =>
    some { e with rawMessage := err.rawMessage, ErrCode := err }

/-! ## `encoding/json`

`ErrorBody` calls `json.Unmarshal(body, &msg)`. The functions that take a decoder as
the argument `unmarshal : Unmarshaler` hold for whatever the library does; `json.Unmarshal`
below is a reference decoder for the target type `meilisearchApiMessage`, following the
behaviour of `encoding/json` on valid UTF-8 text: the statements that relate the
payload to the keys of a body are about it.
-/

/-- The type of `json.Unmarshal(body, &msg)` for a target `msg` of type
`meilisearchApiMessage`: from the body and the target before the call to the target
after the call and the returned error. -/
abbrev Unmarshaler := String → meilisearchApiMessage → meilisearchApiMessage × Option GoError

/-- A JSON value. -/
inductive JSON where
  | null
  | bool (b : Bool)
  | number
  | string (s : String)
  | array (elems : List JSON)
  | object (members : List (String × JSON))

namespace JSON

/-- Skip JSON white space: space, tab, line feed, carriage return. -/
def skipSpace : List Char → List Char
  | [] => []
  | c :: cs => if c = ' ' ∨ c = '\t' ∨ c = '\n' ∨ c = '\r' then skipSpace cs else c :: cs

/-- The value of a hexadecimal digit. -/
def hexDigit (c : Char) : Option Nat :=
  if '0' ≤ c ∧ c ≤ '9' then some (c.toNat - '0'.toNat)
  else if 'a' ≤ c ∧ c ≤ 'f' then some (c.toNat - 'a'.toNat + 10)
  else if 'A' ≤ c ∧ c ≤ 'F' then some (c.toNat - 'A'.toNat + 10)
  else none

/-- The code unit written by the four hexadecimal digits of a `\u` escape. -/
def hex4 (a b c d : Char) : Option Nat := do
  let a ← hexDigit a
  let b ← hexDigit b
  let c ← hexDigit c
  let d ← hexDigit d
  pure (((a * 16 + b) * 16 + c) * 16 + d)

/-- The body of a string literal, after the opening quote, up to the closing quote: the
units it denotes (an escaped `\u` code unit is marked `true`) and the rest of the
input. A control character or an unknown escape is a syntax error. -/
def scanString : List Char → Option (List (Bool × Nat) × List Char)
  | [] => none
  | '"' :: rest => some ([], rest)
  | '\\' :: 'u' :: a :: b :: c :: d :: rest =>
    match hex4 a b c d, scanString rest with
    | some u, some (us, rest) => some ((true, u) :: us, rest)
    | _, _ => none
  | '\\' :: e :: rest =>
    let unit : Option Char :=
      if e = '"' then some '"' else if e = '\\' then some '\\' else if e = '/' then some '/'
      else if e = 'b' then some (Char.ofNat 8) else if e = 'f' then some (Char.ofNat 12)
      else if e = 'n' then some '\n' else if e = 'r' then some '\r'
      else if e = 't' then some '\t' else none
    match unit, scanString rest with
    | some u, some (us, rest) => some ((false, u.toNat) :: us, rest)
    | _, _ => none
  | '\\' :: [] => none
  | c :: rest =>
    if c.toNat < 32 then none
    else match scanString rest with
      | some (us, rest) => some ((false, c.toNat) :: us, rest)
      | none => none

/-- Turn the units of a string literal into characters: an escaped surrogate pair is
one character, an unpaired escaped surrogate is U+FFFD. -/
def unitsToChars : List (Bool × Nat) → List Char
  | [] => []
  | (true, hi) :: (true, lo) :: us =>
    if 0xD800 ≤ hi ∧ hi < 0xDC00 ∧ 0xDC00 ≤ lo ∧ lo < 0xE000 then
      Char.ofNat (0x10000 + (hi - 0xD800) * 0x400 + (lo - 0xDC00)) :: unitsToChars us
    else if 0xD800 ≤ hi ∧ hi < 0xE000 then
      Char.ofNat 0xFFFD :: unitsToChars ((true, lo) :: us)
    else Char.ofNat hi :: unitsToChars ((true, lo) :: us)
  | (true, u) :: us =>
    (if 0xD800 ≤ u ∧ u < 0xE000 then Char.ofNat 0xFFFD else Char.ofNat u) :: unitsToChars us
  | (false, u) :: us => Char.ofNat u :: unitsToChars us

/-- A string literal after its opening quote. -/
def parseString (cs : List Char) : Option (String × List Char) :=
  match scanString cs with
  | some (us, rest) => some (String.mk (unitsToChars us), rest)
  | none => none

/-- Drop the leading decimal digits. -/
def skipDigits : List Char → List Char
  | [] => []
  | c :: cs => if c.isDigit then skipDigits cs else c :: cs

/-- At least one decimal digit, then the rest. -/
def digits1 : List Char → Option (List Char)
  | c :: cs => if c.isDigit then some (skipDigits cs) else none
  | [] => none

/-- A number literal: optional minus, `0` or a non-zero digit followed by digits,
optional fraction, optional exponent. Returns the rest of the input. -/
def parseNumber (cs : List Char) : Option (List Char) := do
  let cs := match cs with
    | '-' :: cs => cs
    | cs => cs
  let cs ← match cs with
    | '0' :: cs => some cs
    | cs => digits1 cs
  let cs ← match cs with
    | '.' :: cs => digits1 cs
    | cs => some cs
  match cs with
  | e :: cs =>
    if e = 'e' ∨ e = 'E' then
      match cs with
      | s :: ds => if s = '+' ∨ s = '-' then digits1 ds else digits1 (s :: ds)
      | [] => none
    else some (e :: cs)
  | [] => some []

/-- The deepest nesting of arrays and objects that `encoding/json` accepts. -/
def maxNestingDepth : Nat := 10000

mutual
/-- A JSON value, with the rest of the input. `depth` is the number of arrays and
objects open around the value: opening one more when `maxNestingDepth` are open is an
error. `fuel` bounds the nesting and the number of members, the length of the input
is enough. -/
def parseValue : Nat → Nat → List Char → Option (JSON × List Char)
  | 0, _, _ => none
  | fuel + 1, depth, cs =>
    match skipSpace cs with
    | '"' :: cs => (parseString cs).map (fun r => (JSON.string r.1, r.2))
    | '\x7b' :: cs =>
      if maxNestingDepth ≤ depth then none
      else
        match skipSpace cs with
        | '\x7d' :: rest => some (JSON.object [], rest)
        | cs => (parseMembers fuel (depth + 1) cs).map (fun r => (JSON.object r.1, r.2))
    | '[' :: cs =>
      if maxNestingDepth ≤ depth then none
      else
        match skipSpace cs with
        | ']' :: rest => some (JSON.array [], rest)
        | cs => (parseElems fuel (depth + 1) cs).map (fun r => (JSON.array r.1, r.2))
    | 't' :: 'r' :: 'u' :: 'e' :: rest => some (JSON.bool true, rest)
    | 'f' :: 'a' :: 'l' :: 's' :: 'e' :: rest => some (JSON.bool false, rest)
    | 'n' :: 'u' :: 'l' :: 'l' :: rest => some (JSON.null, rest)
    | cs => (parseNumber cs).map (fun rest => (JSON.number, rest))
/-- The members of a non-empty object, up to the closing brace. -/
def parseMembers : Nat → Nat → List Char → Option (List (String × JSON) × List Char)
  | 0, _, _ => none
  | fuel + 1, depth, cs =>
    match skipSpace cs with
    | '"' :: cs =>
      match parseString cs with
      | some (key, rest) =>
        match skipSpace rest with
        | ':' :: rest =>
          match parseValue fuel depth rest with
          | some (v, rest) =>
            match skipSpace rest with
            | ',' :: rest =>
              (parseMembers fuel depth rest).map (fun r => ((key, v) :: r.1, r.2))
            | '\x7d' :: rest => some ([(key, v)], rest)
            | _ => none
          | none => none
        | _ => none
      | none => none
    | _ => none
/-- The elements of a non-empty array, up to the closing bracket. -/
def parseElems : Nat → Nat → List Char → Option (List JSON × List Char)
  | 0, _, _ => none
  | fuel + 1, depth, cs =>
    match parseValue fuel depth cs with
    | some (v, rest) =>
      match skipSpace rest with
      | ',' :: rest => (parseElems fuel depth rest).map (fun r => (v :: r.1, r.2))
      | ']' :: rest => some ([v], rest)
      | _ => none
    | none => none
end

/-- A complete JSON text: one value surrounded by optional white space. -/
def parse (body : String) : Option JSON :=
  match parseValue (body.length + 1) 0 body.data with
  | some (v, rest) => if skipSpace rest = [] then some v else none
  | none => none

end JSON

/-- The case folding used to match object keys with field names: an ASCII capital
letter becomes its small letter, and the Kelvin sign U+212A and the long s U+017F,
the two other characters that `encoding/json` takes for a letter of a field name,
become `k` and `s`; every other character stays. -/
def foldChar (c : Char) : Char :=
  if 'A' ≤ c ∧ c ≤ 'Z' then Char.ofNat (c.toNat + 32)
  else if c = Char.ofNat 0x212A then 'k'
  else if c = Char.ofNat 0x17F then 's'
  else c

/-- An object key matches a field name exactly or up to case folding. -/
def keyMatches (key name : String) : Bool :=
  key.data.map foldChar == name.data.map foldChar

/-- Decode one object member into the target: a key naming a field stores a string
value in it, leaves it alone for `null`, and reports a type error for any other
value; other keys are skipped. -/
def decodeMember (msg : meilisearchApiMessage) (key : String) (v : JSON) :
    meilisearchApiMessage × Option GoError :=
  let store (set : String → meilisearchApiMessage) (name : String) :=
    match v with
    | JSON.string s => (set s, none)
    | JSON.null => (msg, none)
    | _ => (msg, some (GoError.mk ("json: cannot unmarshal value into Go struct field " ++
        "meilisearchApiMessage." ++ name ++ " of type string")))
  if keyMatches key "message" then store (fun s => { msg with Message := s }) "message"
  else if keyMatches key "errorCode" then store (fun s => { msg with ErrorCode := s }) "errorCode"
  else if keyMatches key "errorType" then store (fun s => { msg with ErrorType := s }) "errorType"
  else if keyMatches key "errorLink" then store (fun s => { msg with ErrorLink := s }) "errorLink"
  else (msg, none)

/-- Decode the members of an object in order; decoding goes on after a type error
and the first error is the one returned. -/
def decodeMembers (msg : meilisearchApiMessage) :
    List (String × JSON) → meilisearchApiMessage × Option GoError
  | [] => (msg, none)
  | (key, v) :: rest =>
    let r := decodeMember msg key v
    let r2 := decodeMembers r.1 rest
    (r2.1, r.2 <|> r2.2)

/-- Reference model of `json.Unmarshal(body, &msg)` for `msg` of type
`meilisearchApiMessage` and a body that is valid UTF-8 text: a body that is not one
well-formed JSON value, or that nests arrays and objects deeper than
`maxNestingDepth`, is a syntax error and leaves the target alone; `null` is accepted
and changes nothing; an object is decoded member by member, its keys being matched
with the field names up to case folding; any other value is a type error. The error
texts are abbreviated. -/
def json.Unmarshal : Unmarshaler := fun body msg =>
  match JSON.parse body with
  | none => (msg, some (GoError.mk "json: syntax error"))
  | some JSON.null => (msg, none)
  | some (JSON.object members) => decodeMembers msg members
  | some _ => (msg, some (GoError.mk
      "json: cannot unmarshal value into Go value of type meilisearch.meilisearchApiMessage"))

/-- `func (e *Error) ErrorBody(body []byte)` as a function on the state of `*e`;
`unmarshal` is `json.Unmarshal`. -/
def Error.ErrorBody (unmarshal : Unmarshaler) (e : Meilisearch.Error) (body : String) :
    Meilisearch.Error :=
  let e := { e with ResponseToString := body }
  let r := unmarshal body {}
  match r.2 with
  | none =>
    { e with MeilisearchApiMessage :=
        { Message := r.1.Message, ErrorCode := r.1.ErrorCode,
          ErrorType := r.1.ErrorType, ErrorLink := r.1.ErrorLink } }
  | some _ => e

/-- The response body of the test case `TestIndexAddDocumentsMissingPrimaryKey`. -/
def missingPrimaryKeyBody : String :=
  "\x7b\"message\":\"schema cannot be built without a primary key\",\"errorCode\":\"missing_primary_key\",\"errorType\":\"invalid_request_error\",\"errorLink\":\"https://docs.meilisearch.com/errors#missing_primary_key\"\x7d"


/-! ## The pointer receiver of `WithErrCode` -/

/-- The address of an `Error` value. -/
abbrev Ptr := Nat

/-- The `Error` values in memory: what each address holds, `none` where no `Error` is
allocated. -/
abbrev Heap := Ptr → Option Error

/-- `func (e *Error) WithErrCode(err ErrCode, errs ...error) *Error` with the pointer
made explicit: the memory after the call and the returned pointer, `none` when the
call panics. -/
def Error.WithErrCodeAt (heap : Heap) (e : Ptr) (err : Meilisearch.ErrCode)
    (errs : Slice (Option GoError)) : Option (Heap × Ptr) :=
  match heap e with
  | none => none
  | some v =>
    match v.WithErrCode err errs with
    | none => none
    | some v2 => some (Function.update heap e (some v2), e)

/-! ## The request executor -/

/-- Modelled from the spec: the status-code step of the request executor (section 4.2,
step 3, and the second testable property of section 8), whose source, the client's
request code, is not among the source files. `internalError` is the error value in
progress, which already carries endpoint, method, function and the request string;
`statusCode` and `body` are those of the response received. When the status code is a
member of the accepted set the result is `none` (the executor goes on to decode the
body). Otherwise the observed and the expected status codes are recorded, the body is
attached with `ErrorBody`, and the code is `MeilisearchApiError` if the body parses
and yields a non-empty message, `MeilisearchApiErrorWithoutMessage` otherwise. -/
def handleStatusCode (unmarshal : Unmarshaler) (internalError : Error)
    (acceptedStatusCodes : Slice Int) (statusCode : Int) (body : String) : Option Error :=
  if statusCode ∈ acceptedStatusCodes.getD [] then none
  else
    let e := { internalError with
      StatusCode := statusCode, StatusCodeExpected := acceptedStatusCodes }
    let e := e.ErrorBody unmarshal body
    let parsed := unmarshal body {}
    if parsed.2 = none ∧ parsed.1.Message ≠ "" then e.WithErrCode MeilisearchApiError none
    else e.WithErrCode MeilisearchApiErrorWithoutMessage none

/-! ## The test case `TestIndexAddDocumentsMissingPrimaryKey` -/

/-- The payload of `expectedError` in the test. -/
def expectedMessage : meilisearchApiMessage :=
  { Message := "schema cannot be built without a primary key",
    ErrorCode := "missing_primary_key",
    ErrorType := "invalid_request_error",
    ErrorLink := "https://docs.meilisearch.com/errors#missing_primary_key" }

/-- The `expectedError` of the test, field for field. -/
def expectedError : Error :=
  { Endpoint := "/indexes/6/documents",
    Method := "POST",
    Function := "AddDocuments",
    RequestToString := "[\x7b\"Key\":123,\"Title\":\"Pride and Prejudice\"\x7d,\x7b\"Key\":456,\"Tag\":\"Conte\",\"Title\":\"Le Petit Prince\"\x7d,\x7b\"Key\":1,\"Title\":\"Alice In Wonderland\"\x7d]",
    ResponseToString := "\x7b\"message\":\"schema cannot be built without a primary key\",\"errorCode\":\"missing_primary_key\",\"errorType\":\"invalid_request_error\",\"errorLink\":\"https://docs.meilisearch.com/errors#missing_primary_key\"\x7d",
    MeilisearchApiMessage := expectedMessage,
    StatusCode := 400,
    StatusCodeExpected := some [202],
    rawMessage := "unaccepted status code found: ${statusCode} expected: ${statusCodeExpected}, MeilisearchApiError Message: ${message}, ErrorCode: ${errorCode}, ErrorType: ${errorType}, ErrorLink: ${errorLink} (path \"${method} ${endpoint}\" with method \"${function}\")",
    OriginError := none,
    ErrCode := 4 }

/-- The error value in progress when the response of the test arrives: the request
context of the call `AddDocuments` on index `6`, everything else zero. -/
def addDocumentsContext : Error :=
  { Endpoint := "/indexes/6/documents",
    Method := "POST",
    Function := "AddDocuments",
    RequestToString := "[\x7b\"Key\":123,\"Title\":\"Pride and Prejudice\"\x7d,\x7b\"Key\":456,\"Tag\":\"Conte\",\"Title\":\"Le Petit Prince\"\x7d,\x7b\"Key\":1,\"Title\":\"Alice In Wonderland\"\x7d]" }

/-- The same context once the observed status code 400 and the accepted set `[202]`
are recorded. -/
def addDocumentsRejected : Error :=
  { addDocumentsContext with StatusCode := 400, StatusCodeExpected := some [202] }

/-! ## Concrete error values used to evaluate the code -/

/-- A request that could not be marshalled, for a document whose title is the text
`${function}`; the code is still to be attached. -/
def marshalFailure : Error :=
  { Endpoint := "/indexes/6/documents",
    Method := "POST",
    Function := "AddDocuments",
    RequestToString := "[\x7b\"Title\":\"${function}\"\x7d]",
    ResponseToString := "empty response" }

/-- A transport failure with its cause attached. -/
def communicationError : Error :=
  { Endpoint := "/indexes",
    Method := "POST",
    Function := "CreateIndex",
    RequestToString := "empty request",
    ResponseToString := "empty response",
    rawMessage := MeilisearchCommunicationError.rawMessage,
    OriginError := some (GoError.mk "connection refused"),
    ErrCode := MeilisearchCommunicationError }

/-- A rejected call on the index whose identifier is the text `${response}`, answered
with the body `response`, which is not JSON; the code is still to be attached. -/
def gatewayFailure (response : String) : Error :=
  { Endpoint := "/indexes/${response}/documents",
    Method := "POST",
    Function := "AddDocuments",
    RequestToString := "empty request",
    ResponseToString := response,
    StatusCode := 502,
    StatusCodeExpected := some [202] }

/-- A timed-out call on the index whose identifier is the text `${function}`; the
code is still to be attached. -/
def timeoutFailure : Error :=
  { Endpoint := "/indexes/${function}/documents",
    Method := "POST",
    Function := "AddDocuments",
    RequestToString := "empty request",
    ResponseToString := "empty response" }

/-- A body that is only partly well typed: the error code is a string, the message a
number. -/
def partlyTypedBody : String :=
  "\x7b\"errorCode\":\"missing_primary_key\",\"message\":5\x7d"

/-- The text that names the failing call: `rawStringCtx` with the three fields of `e`
written in place of its placeholders. -/
def contextText (e : Error) : String :=
  "(path \"" ++ e.Method ++ " " ++ e.Endpoint ++ "\" with method \"" ++ e.Function ++ "\")"

/-- The nine fields of `Error` other than `rawMessage` and `OriginError` are equal. -/
def sameExportedContext (a b : Error) : Prop :=
  a.Endpoint = b.Endpoint ∧ a.Method = b.Method ∧ a.Function = b.Function ∧
  a.RequestToString = b.RequestToString ∧ a.ResponseToString = b.ResponseToString ∧
  a.MeilisearchApiMessage = b.MeilisearchApiMessage ∧ a.StatusCode = b.StatusCode ∧
  a.StatusCodeExpected = b.StatusCodeExpected ∧ a.ErrCode = b.ErrCode

instance (a b : Error) : Decidable (sameExportedContext a b) := by
  unfold sameExportedContext; infer_instance

/-! ## Sequences of builder calls -/

/-- A call of one of the two builder methods of `*Error`. -/
inductive BuilderCall where
  | withErrCode (err : ErrCode) (errs : Slice (Option GoError))
  | errorBody (body : String)

/-- The state of the receiver after one builder call, `none` when the call panics. -/
def BuilderCall.apply (unmarshal : Unmarshaler) (e : Error) : BuilderCall → Option Error
  | .withErrCode err errs => e.WithErrCode err errs
  | .errorBody body => some (e.ErrorBody unmarshal body)

/-- The state of the receiver after a sequence of builder calls made one after the
other, `none` when one of them panics. -/
def applyCalls (unmarshal : Unmarshaler) (e : Error) : List BuilderCall → Option Error
  | [] => some e
  | call :: calls =>
    match call.apply unmarshal e with
    | some e2 => applyCalls unmarshal e2 calls
    | none => none

/-- The seven named constants of type `ErrCode`, in the order of the const block. -/
def namedErrCodes : List ErrCode :=
  [ErrCodeUnknown, ErrCodeMarshalRequest, ErrCodeResponseUnmarshalBody, MeilisearchApiError,
    MeilisearchApiErrorWithoutMessage, MeilisearchTimeoutError, MeilisearchCommunicationError]

/-! ## The async operation tracker -/

/-- Modelled from the spec: the `OperationStatus` enumeration of section 3 of the spec,
polled from the service; the tracker's source is not among the source files. -/
inductive OperationStatus where
  | Enqueued
  | Processing
  | Succeeded
  | Failed
  deriving DecidableEq, Repr

/-- Modelled from the spec: the terminal states are `Succeeded` and `Failed`
(section 3). -/
def OperationStatus.isTerminal : OperationStatus → Bool
  | .Succeeded => true
  | .Failed => true
  | _ => false

/-- Modelled from the spec: the polling loop of `WaitFor` (section 4.3), whose source
is not among the source files. Time is a logical clock: `elapsed k` is the cumulative
elapsed time when the loop comes to its poll number `k` (the sleeps of one `interval`
between polls and the time taken by the calls are what makes it grow), and `fetch k`
is the outcome of the status-fetch call number `k` for the handle, made through the
request executor. The loop stops as soon as the elapsed time exceeds `timeout`, with
an `Error` of code `MeilisearchTimeoutError` built from `internalError`, or as soon
as the status is terminal, which is returned with no error (`Failed` included); a
failed status fetch is returned at once. Polls are counted from `k`; the result is
`none` when `fuel` polls were not enough to stop. -/
def WaitFor (fetch : Nat → Except Error OperationStatus) (elapsed : Nat → Nat)
    (timeout : Nat) (internalError : Error) :
    Nat → Nat → Option (Option OperationStatus × Option Error)
  | 0, _ => none
  | fuel + 1, k =>
    if timeout < elapsed k then
      (internalError.WithErrCode MeilisearchTimeoutError none).map (fun e => (none, some e))
    else
      match fetch k with
      | .error e => some (none, some e)
      | .ok status =>
        if status.isTerminal then some (some status, none)
        else WaitFor fetch elapsed timeout internalError fuel (k + 1)

/-- The error value in progress while the tracker polls the status of update `0` of
index `1`. -/
def waitContext : Error :=
  { Endpoint := "/indexes/1/updates/0",
    Method := "GET",
    Function := "WaitForPendingUpdate",
    RequestToString := "empty request",
    ResponseToString := "empty response" }

/-- An update that goes from `Enqueued` to `Processing` to `Succeeded`: the status
seen by poll number `k`. -/
def succeedingUpdate (k : Nat) : Except Error OperationStatus :=
  if k = 0 then .ok .Enqueued else if k < 3 then .ok .Processing else .ok .Succeeded

/-! ## Templates cut at their placeholders -/

/-- The characters of the placeholder that `namedSprintf` builds for `key`: a dollar
sign, an opening brace, the key and a closing brace. -/
def placeholder (key : String) : List Char :=
  '$' :: '\x7b' :: (key.data ++ ['\x7d'])

/-- Cut a template at its placeholders: the result lists each literal text with the
key of the placeholder that follows it, and ends with the literal text after the last
placeholder. `lit` is the literal text read so far, reversed, and `key` the key being
read, reversed, when the reading is inside a placeholder. -/
def cutLoop : List Char → List Char → Option (List Char) →
    List (List Char × String) × List Char
  | [], lit, none => ([], lit.reverse)
  | [], lit, some key => ([], lit.reverse ++ '$' :: '\x7b' :: key.reverse)
  | c :: s, lit, some key =>
    if c = '\x7d' then
      ((lit.reverse, String.mk key.reverse) :: (cutLoop s [] none).1, (cutLoop s [] none).2)
    else cutLoop s lit (some (c :: key))
  | '$' :: '\x7b' :: s, lit, none => cutLoop s lit (some [])
  | c :: s, lit, none => cutLoop s (c :: lit) none

/-- The pieces of a template: literal texts and the keys of the placeholders between
them. -/
def cut (format : String) : List (List Char × String) × List Char :=
  cutLoop format.data [] none

/-- The text standing at the placeholder of `key` when the keys filled so far are
those on which `filled` is defined: the value, or the placeholder itself. -/
def slotText (filled : String → Option (List Char)) (key : String) : List Char :=
  match filled key with
  | some v => v
  | none => placeholder key

/-- Put a cut template together again, each placeholder being replaced by its value
if it has one in `filled`. -/
def render (filled : String → Option (List Char)) :
    List (List Char × String) → List Char → List Char
  | [], last => last
  | (lit, key) :: rest, last => lit ++ (slotText filled key ++ render filled rest last)

/-- The pieces of a template keep its values apart: no literal text is empty or holds
a dollar sign or an opening brace, and no key holds a dollar sign or a closing brace. -/
def WellCut (pieces : List (List Char × String)) (last : List Char) : Prop :=
  (∀ p ∈ pieces, p.1 ≠ [] ∧ '$' ∉ p.1 ∧ '\x7b' ∉ p.1 ∧ '$' ∉ p.2.data ∧ '\x7d' ∉ p.2.data) ∧
  '$' ∉ last ∧ '\x7b' ∉ last

instance (pieces : List (List Char × String)) (last : List Char) :
    Decidable (WellCut pieces last) := by
  unfold WellCut; infer_instance

/-- The filling after `namedSprintf` has visited one more key: a placeholder that has
no value yet gets `new`, nothing else changes. -/
def fill (filled : String → Option (List Char)) (key : String) (new : List Char) :
    String → Option (List Char) :=
  fun k => if k = key then (match filled k with | some v => some v | none => some new)
    else filled k

/-- The filling after `namedSprintf` has visited the entries `visited` in order. -/
def fills (visited : List (String × Value)) (filled : String → Option (List Char)) :
    String → Option (List Char) :=
  visited.foldl (fun filled kv => fill filled kv.1 (fmt.Sprintf_v kv.2).data) filled

/-- The formatted value of `key` in the parameter map `params`. -/
def valueOf (params : List (String × Value)) (key : String) : Option (List Char) :=
  (params.lookup key).map (fun v => (fmt.Sprintf_v v).data)

/-- The template with every placeholder replaced at once, in one pass from left to
right: where the placeholder of a key of `params` starts, the formatted value of that
key is written and the placeholder skipped; any other character is copied. `skip`
counts the characters of a placeholder still to be skipped. -/
def substituteLoop (params : List (String × Value)) : Nat → List Char → List Char
  | _, [] => []
  | skip + 1, _ :: s => substituteLoop params skip s
  | 0, c :: s =>
    match params.find? (fun kv => placeholder kv.1 <+: c :: s) with
    | some kv =>
      (fmt.Sprintf_v kv.2).data ++ substituteLoop params ((placeholder kv.1).length - 1) s
    | none => c :: substituteLoop params 0 s

/-- Simultaneous substitution: `format` with every placeholder `${key}` replaced at
once by the formatted value of `key` in `params`. -/
def substituteAtOnce (format : String) (params : List (String × Value)) : String :=
  String.mk (substituteLoop params 0 format.data)

/-- None of the nine string fields that `Error()` prints contains the text `${`. -/
def CleanFields (e : Error) : Prop :=
  ¬ strings.Contains e.Endpoint "$\x7b" ∧ ¬ strings.Contains e.Method "$\x7b" ∧
  ¬ strings.Contains e.Function "$\x7b" ∧ ¬ strings.Contains e.RequestToString "$\x7b" ∧
  ¬ strings.Contains e.ResponseToString "$\x7b" ∧
  ¬ strings.Contains e.MeilisearchApiMessage.Message "$\x7b" ∧
  ¬ strings.Contains e.MeilisearchApiMessage.ErrorCode "$\x7b" ∧
  ¬ strings.Contains e.MeilisearchApiMessage.ErrorType "$\x7b" ∧
  ¬ strings.Contains e.MeilisearchApiMessage.ErrorLink "$\x7b"

instance (e : Error) : Decidable (CleanFields e) := by
  unfold CleanFields; infer_instance

/-- The keys of the map that `Error.Error` builds. -/
def paramKeys : List String :=
  ["endpoint", "method", "function", "request", "response", "statusCodeExpected",
    "statusCode", "message", "errorCode", "errorType", "errorLink"]

/-- No value of the filling contains the text `${`. -/
def CleanFilling (filled : String → Option (List Char)) : Prop :=
  ∀ k v, filled k = some v → ¬ ['$', '\x7b'] <:+: v

/-! ## The keys of a body -/

/-- The members of the JSON object that a body holds, in the order they are written;
no member when the body is not a JSON object. -/
def bodyMembers (body : String) : List (String × JSON) :=
  match JSON.parse body with
  | some (JSON.object members) => members
  | _ => []

/-- The keys of the JSON object that a body holds, as they are written. -/
def bodyKeys (body : String) : List String :=
  (bodyMembers body).map Prod.fst

/-- The JSON names of the four payload fields, from the struct tags of
`meilisearchApiMessage`. -/
def payloadKeys : List String :=
  ["message", "errorCode", "errorType", "errorLink"]

/-- The payload field that the struct tag `json:"name"` names. -/
def meilisearchApiMessage.field (msg : meilisearchApiMessage) (name : String) : String :=
  if name = "message" then msg.Message
  else if name = "errorCode" then msg.ErrorCode
  else if name = "errorType" then msg.ErrorType
  else if name = "errorLink" then msg.ErrorLink
  else ""

/-- A body whose only key is `MESSAGE`, in capital letters. -/
def upperCaseBody : String :=
  "\x7b\"MESSAGE\":\"upper\"\x7d"

/-- An `Error` whose payload was filled by an earlier call. -/
def filledError : Error :=
  { MeilisearchApiMessage := ⟨"old", "old", "old", "old"⟩ }


/-! ## Theorems -/

/-- C1 (the code at the failing input). Rendering depends on the order in which
`namedSprintf` visits the map: for the marshalling error of a document whose title is
the text `${function}`, visiting the eleven keys in source order leaves that text in
the message, while visiting them in the reverse order replaces it by the function
name. Both orders visit every entry exactly once. -/
theorem Error_depends_on_visit_order :
    ∃ e : Error, marshalFailure.WithErrCode ErrCodeMarshalRequest none = some e ∧
      IsRangeOrder e.params e.params ∧ IsRangeOrder e.params e.params.reverse ∧
      e.Error e.params =
        "unable to marshal body from request: '[\x7b\"Title\":\"${function}\"\x7d]' (path \"POST /indexes/6/documents\" with method \"AddDocuments\")" ∧
      e.Error e.params.reverse =
        "unable to marshal body from request: '[\x7b\"Title\":\"AddDocuments\"\x7d]' (path \"POST /indexes/6/documents\" with method \"AddDocuments\")" ∧
      e.Error e.params ≠ e.Error e.params.reverse := by
  refine ⟨_, rfl, ?_, ?_, ?_, ?_, ?_⟩ <;> decide

/-- C2 (counterexample). For a transport failure whose cause is `connection refused`,
`Error()` ends with the cause and does not start with it: no separator makes the
returned string the cause followed by the rendered message. -/
theorem cause_not_first :
    communicationError.OriginError = some (GoError.mk "connection refused") ∧
    communicationError.Error communicationError.params =
      "MeilisearchCommunicationError unable to execute request (path \"POST /indexes\" with method \"CreateIndex\"): connection refused" ∧
    ¬ ∃ sep : String, communicationError.Error communicationError.params =
        "connection refused" ++ sep ++
          namedSprintf communicationError.rawMessage communicationError.params := by
  refine ⟨rfl, by decide, ?_⟩
  rintro ⟨sep, h⟩
  have h2 := congrArg (fun s : String => s.data.head?) h
  simp [String.data_append] at h2
  revert h2
  decide

/-- C2 (amended). For every `Error` whose `OriginError` is present and every order of
visiting the map, `Error()` is the rendered template message, then a colon and a
space, then the message of the cause: the rendered message comes first and the cause
after it. The rendered message is what `Error()` returns for the same value without
its cause. -/
theorem Error_with_cause (e : Error) (visited : List (String × Value)) (origin : GoError)
    (h : e.OriginError = some origin) :
    e.Error visited = namedSprintf e.rawMessage visited ++ ": " ++ origin.text ∧
    e.Error visited = ({ e with OriginError := none } : Error).Error visited ++ ": " ++
      origin.text := by
  simp [Error.Error, h, errors.Wrap_Error]

/-- Witness of `Error_with_cause`: the transport failure caused by
`connection refused`. -/
theorem Error_with_cause_witness :
    communicationError.Error communicationError.params =
      namedSprintf communicationError.rawMessage communicationError.params ++ ": " ++
        "connection refused" ∧
    communicationError.Error communicationError.params =
      ({ communicationError with OriginError := none } : Error).Error
        communicationError.params ++ ": " ++ "connection refused" :=
  Error_with_cause communicationError communicationError.params
    (GoError.mk "connection refused") rfl

/-- C3 (the code at the failing input). Two rejections of a call on the index named
`${response}` are given the code `MeilisearchApiErrorWithoutMessage`, whose template
has no placeholder `${response}`, and differ only in `ResponseToString`; with the
map visited in source order `Error()` returns different strings for them, each
showing its response body in the path. -/
theorem absent_field_not_ignored :
    ∃ a b : Error,
      (gatewayFailure "Bad Gateway").WithErrCode MeilisearchApiErrorWithoutMessage none
        = some a ∧
      (gatewayFailure "Service Unavailable").WithErrCode MeilisearchApiErrorWithoutMessage none
        = some b ∧
      b = { a with ResponseToString := "Service Unavailable" } ∧
      ¬ strings.Contains MeilisearchApiErrorWithoutMessage.rawMessage "${response}" ∧
      a.Error a.params =
        "unaccepted status code found: 502 expected: [202], MeilisearchApiError Message:  (path \"POST /indexes/Bad Gateway/documents\" with method \"AddDocuments\")" ∧
      b.Error b.params =
        "unaccepted status code found: 502 expected: [202], MeilisearchApiError Message:  (path \"POST /indexes/Service Unavailable/documents\" with method \"AddDocuments\")" ∧
      a.Error a.params ≠ b.Error b.params := by
  refine ⟨_, _, rfl, rfl, ?_, ?_, ?_, ?_, ?_⟩ <;> decide


/-! ### The payload that `ErrorBody` stores and the keys of the body -/

/-- A key matches at most one of the four field names. -/
theorem keyMatches_payload_unique (key : String) :
    ∀ n1 ∈ payloadKeys, ∀ n2 ∈ payloadKeys,
      keyMatches key n1 = true → keyMatches key n2 = true → n1 = n2 := by
  have hfold : ∀ n1 ∈ payloadKeys, ∀ n2 ∈ payloadKeys,
      n1.data.map foldChar = n2.data.map foldChar → n1 = n2 := by decide
  intro n1 h1 n2 h2 hk1 hk2
  simp only [keyMatches, beq_iff_eq] at hk1 hk2
  exact hfold n1 h1 n2 h2 (hk1.symm.trans hk2)

/-- A member that does not hold a string leaves the target as it is. -/
theorem decodeMember_not_string (msg : meilisearchApiMessage) (key : String) (v : JSON)
    (hv : ∀ t, v ≠ JSON.string t) : (decodeMember msg key v).1 = msg := by
  unfold decodeMember
  cases v with
  | string t => exact absurd rfl (hv t)
  | null => simp only []; split_ifs <;> rfl
  | bool b => simp only []; split_ifs <;> rfl
  | number => simp only []; split_ifs <;> rfl
  | array elems => simp only []; split_ifs <;> rfl
  | object members => simp only []; split_ifs <;> rfl

/-- A member whose key does not match a field name leaves that field as it is. -/
theorem decodeMember_other_key (msg : meilisearchApiMessage) (key : String) (v : JSON)
    (name : String) (hn : name ∈ payloadKeys) (hk : keyMatches key name = false) :
    (decodeMember msg key v).1.field name = msg.field name := by
  by_cases hv : ∀ t, v ≠ JSON.string t
  · rw [decodeMember_not_string msg key v hv]
  · have hs : ∃ t, v = JSON.string t := by
      by_contra hne
      exact hv (fun t ht => hne ⟨t, ht⟩)
    obtain ⟨t, rfl⟩ := hs
    simp only [payloadKeys, List.mem_cons, List.mem_singleton, List.not_mem_nil,
      or_false] at hn
    rcases hn with rfl | rfl | rfl | rfl
    · simp only [decodeMember, hk, Bool.false_eq_true, if_false]
      split_ifs <;> rfl
    · simp only [decodeMember, hk, Bool.false_eq_true, if_false]
      split_ifs <;> rfl
    · simp only [decodeMember, hk, Bool.false_eq_true, if_false]
      split_ifs <;> rfl
    · simp only [decodeMember, hk, Bool.false_eq_true, if_false]
      split_ifs <;> rfl

/-- A member whose key matches a field name and that holds a string stores the string
in that field. -/
theorem decodeMember_string_field (msg : meilisearchApiMessage) (key s name : String)
    (hn : name ∈ payloadKeys) (hk : keyMatches key name = true) :
    (decodeMember msg key (JSON.string s)).1.field name = s := by
  have other : ∀ n2 ∈ payloadKeys, n2 ≠ name → keyMatches key n2 = false := by
    intro n2 h2 hne
    cases h : keyMatches key n2 with
    | false => rfl
    | true => exact absurd (keyMatches_payload_unique key n2 h2 name hn h hk) hne
  simp only [payloadKeys, List.mem_cons, List.mem_singleton, List.not_mem_nil,
    or_false] at hn
  rcases hn with rfl | rfl | rfl | rfl
  · simp only [decodeMember, hk]
    rfl
  · have h1 := other "message" (by decide) (by decide)
    simp only [decodeMember, hk, h1]
    rfl
  · have h1 := other "message" (by decide) (by decide)
    have h2 := other "errorCode" (by decide) (by decide)
    simp only [decodeMember, hk, h1, h2]
    rfl
  · have h1 := other "message" (by decide) (by decide)
    have h2 := other "errorCode" (by decide) (by decide)
    have h3 := other "errorType" (by decide) (by decide)
    simp only [decodeMember, hk, h1, h2, h3]
    rfl

/-- Decoding two runs of members one after the other. -/
theorem decodeMembers_append (post : List (String × JSON)) :
    ∀ (pre : List (String × JSON)) (msg : meilisearchApiMessage),
      (decodeMembers msg (pre ++ post)).1 = (decodeMembers (decodeMembers msg pre).1 post).1
  | [], _ => rfl
  | (key, v) :: pre, msg => by
    simp only [List.cons_append, decodeMembers]
    exact decodeMembers_append post pre _

/-- Members that do not give a string to a field leave it as it is. -/
theorem decodeMembers_untouched (name : String) (hn : name ∈ payloadKeys) :
    ∀ (members : List (String × JSON)) (msg : meilisearchApiMessage),
      (∀ m ∈ members, keyMatches m.1 name = true → ∀ t, m.2 ≠ JSON.string t) →
      (decodeMembers msg members).1.field name = msg.field name
  | [], _, _ => rfl
  | (key, v) :: members, msg, h => by
    simp only [decodeMembers]
    rw [decodeMembers_untouched name hn members _
      (fun m hm => h m (List.mem_cons_of_mem _ hm))]
    cases hk : keyMatches key name with
    | false => exact decodeMember_other_key msg key v name hn hk
    | true =>
      rw [decodeMember_not_string msg key v (h (key, v) (List.mem_cons_self _ _) hk)]

/-- The field that the members of an object give: the string of the last member whose
key matches the field name and that holds a string. -/
theorem decodeMembers_last_string (name : String) (hn : name ∈ payloadKeys)
    (msg : meilisearchApiMessage) (pre post : List (String × JSON)) (key s : String)
    (hk : keyMatches key name = true)
    (hpost : ∀ m ∈ post, keyMatches m.1 name = true → ∀ t, m.2 ≠ JSON.string t) :
    (decodeMembers msg (pre ++ (key, JSON.string s) :: post)).1.field name = s := by
  rw [decodeMembers_append]
  simp only [decodeMembers]
  rw [decodeMembers_untouched name hn post _ hpost]
  exact decodeMember_string_field _ key s name hn hk

/-- The target after the reference decoder has accepted a body: the fresh target
decoded with the members of the body. -/
theorem Unmarshal_parsed (body : String) (h : (json.Unmarshal body {}).2 = none) :
    (json.Unmarshal body {}).1 = (decodeMembers {} (bodyMembers body)).1 := by
  unfold json.Unmarshal bodyMembers at *
  cases hp : JSON.parse body with
  | none => rw [hp] at h; exact absurd h (by simp)
  | some v =>
    rw [hp] at h
    cases v with
    | null => rfl
    | object members => rfl
    | bool b => exact absurd h (by simp)
    | number => exact absurd h (by simp)
    | string t => exact absurd h (by simp)
    | array elems => exact absurd h (by simp)

/-- C4 (counterexample). The body whose only key is `MESSAGE` parses successfully and
the key `message` is absent from it, yet after `ErrorBody` the field `Message` is
`upper`, not the empty string. -/
theorem absent_key_not_empty :
    (json.Unmarshal upperCaseBody {}).2 = none ∧
    bodyKeys upperCaseBody = ["MESSAGE"] ∧
    "message" ∉ bodyKeys upperCaseBody ∧
    (({} : Error).ErrorBody json.Unmarshal upperCaseBody).MeilisearchApiMessage.Message
      = "upper" ∧
    (({} : Error).ErrorBody json.Unmarshal upperCaseBody).MeilisearchApiMessage.Message
      ≠ "" := by
  refine ⟨by decide, by decide, by decide, by decide, by decide⟩

/-- C4 (amended). For every body that the decoder accepts, after `ErrorBody` the
field `ResponseToString` is the body and, for each of the four payload fields, named
`message`, `errorCode`, `errorType` and `errorLink`: the field is the string of the
last member of the body's object whose key matches the name up to case folding and
that holds a string, and it is the empty string when the body has no such member,
whatever the payload held before the call. -/
theorem ErrorBody_fills_payload (e : Error) (body : String)
    (h : (json.Unmarshal body {}).2 = none) :
    (e.ErrorBody json.Unmarshal body).ResponseToString = body ∧
    ∀ name ∈ payloadKeys,
      (∀ (pre post : List (String × JSON)) (key s : String),
        bodyMembers body = pre ++ (key, JSON.string s) :: post →
        keyMatches key name = true →
        (∀ m ∈ post, keyMatches m.1 name = true → ∀ t, m.2 ≠ JSON.string t) →
        (e.ErrorBody json.Unmarshal body).MeilisearchApiMessage.field name = s) ∧
      ((∀ m ∈ bodyMembers body, keyMatches m.1 name = true → ∀ t, m.2 ≠ JSON.string t) →
        (e.ErrorBody json.Unmarshal body).MeilisearchApiMessage.field name = "") := by
  have hpay : (e.ErrorBody json.Unmarshal body).MeilisearchApiMessage
      = (decodeMembers {} (bodyMembers body)).1 := by
    rw [← Unmarshal_parsed body h]
    simp only [Error.ErrorBody, h]
  have hresp : (e.ErrorBody json.Unmarshal body).ResponseToString = body := by
    simp only [Error.ErrorBody, h]
  refine ⟨hresp, ?_⟩
  intro name hn
  rw [hpay]
  constructor
  · intro pre post key s hsplit hk hpost
    rw [hsplit]
    exact decodeMembers_last_string name hn {} pre post key s hk hpost
  · intro hnone
    rw [decodeMembers_untouched name hn _ _ hnone]
    simp only [payloadKeys, List.mem_cons, List.mem_singleton, List.not_mem_nil,
      or_false] at hn
    rcases hn with rfl | rfl | rfl | rfl <;> rfl

/-- Witness of `ErrorBody_fills_payload`, starting from an `Error` whose payload is
already filled: on the 400 response body of the missing-primary-key test the four
payload fields are the values the test expects, and on the body whose only key is
`MESSAGE` the field `Message` is `upper` and the field `ErrorCode` is empty. -/
theorem ErrorBody_fills_payload_witness :
    (json.Unmarshal missingPrimaryKeyBody {}).2 = none ∧
    (filledError.ErrorBody json.Unmarshal missingPrimaryKeyBody).ResponseToString
      = missingPrimaryKeyBody ∧
    (filledError.ErrorBody json.Unmarshal missingPrimaryKeyBody).MeilisearchApiMessage.field
      "message" = "schema cannot be built without a primary key" ∧
    (filledError.ErrorBody json.Unmarshal missingPrimaryKeyBody).MeilisearchApiMessage.field
      "errorLink" = "https://docs.meilisearch.com/errors#missing_primary_key" ∧
    (filledError.ErrorBody json.Unmarshal missingPrimaryKeyBody).MeilisearchApiMessage
      = expectedMessage ∧
    (json.Unmarshal upperCaseBody {}).2 = none ∧
    (filledError.ErrorBody json.Unmarshal upperCaseBody).MeilisearchApiMessage.field
      "message" = "upper" ∧
    (filledError.ErrorBody json.Unmarshal upperCaseBody).MeilisearchApiMessage.field
      "errorCode" = "" :=
  have h1 := ErrorBody_fills_payload filledError missingPrimaryKeyBody (by decide)
  have h2 := ErrorBody_fills_payload filledError upperCaseBody (by decide)
  ⟨by decide, h1.1,
    (h1.2 "message" (by decide)).1 []
      [("errorCode", JSON.string "missing_primary_key"),
        ("errorType", JSON.string "invalid_request_error"),
        ("errorLink", JSON.string "https://docs.meilisearch.com/errors#missing_primary_key")]
      "message" "schema cannot be built without a primary key" rfl (by decide)
      (by
        intro m hm hk
        simp only [List.mem_cons, List.mem_singleton, List.not_mem_nil, or_false] at hm
        rcases hm with rfl | rfl | rfl <;> exact absurd hk (by decide)),
    (h1.2 "errorLink" (by decide)).1
      [("message", JSON.string "schema cannot be built without a primary key"),
        ("errorCode", JSON.string "missing_primary_key"),
        ("errorType", JSON.string "invalid_request_error")] []
      "errorLink" "https://docs.meilisearch.com/errors#missing_primary_key" rfl (by decide)
      (fun m hm => absurd hm (List.not_mem_nil m)),
    by decide, by decide,
    (h2.2 "message" (by decide)).1 [] [] "MESSAGE" "upper" rfl (by decide)
      (fun m hm => absurd hm (List.not_mem_nil m)),
    (h2.2 "errorCode" (by decide)).2
      (by
        intro m hm hk
        have hm2 : m ∈ [("MESSAGE", JSON.string "upper")] := hm
        simp only [List.mem_singleton] at hm2
        subst hm2
        exact absurd hk (by decide))⟩

/-- C5. For every decoder, every `Error` and every body on which the decoder returns
an error, `ErrorBody` (a total function: it cannot fail) changes nothing but
`ResponseToString`, which it sets to the body: the four payload fields keep the
values they had before the call, whatever the decoder wrote into its target before
giving up, and they are empty for a fresh `Error`. -/
theorem ErrorBody_unparsed (unmarshal : Unmarshaler) (e : Error) (body : String)
    (h : (unmarshal body {}).2 ≠ none) :
    e.ErrorBody unmarshal body = { e with ResponseToString := body } ∧
    (e.ErrorBody unmarshal body).MeilisearchApiMessage = e.MeilisearchApiMessage ∧
    (e.ErrorBody unmarshal body).ResponseToString = body ∧
    (({} : Error).ErrorBody unmarshal body).MeilisearchApiMessage = ⟨"", "", "", ""⟩ := by
  have key : ∀ e : Error, e.ErrorBody unmarshal body = { e with ResponseToString := body } := by
    intro e
    obtain ⟨g, hg⟩ := Option.ne_none_iff_exists'.1 h
    simp [Error.ErrorBody, hg]
  refine ⟨key e, ?_, ?_, ?_⟩
  · rw [key e]
  · rw [key e]
  · rw [key {}]

/-- Witness of `ErrorBody_unparsed`: on an object whose error code is a string and
whose message is a number the reference decoder stores the error code in its target
and returns a type error; the payload of the `Error` stays as it was. -/
theorem ErrorBody_unparsed_witness :
    (json.Unmarshal partlyTypedBody {}).1.ErrorCode = "missing_primary_key" ∧
    (json.Unmarshal partlyTypedBody {}).2 ≠ none ∧
    addDocumentsRejected.ErrorBody json.Unmarshal partlyTypedBody
      = { addDocumentsRejected with ResponseToString := partlyTypedBody } ∧
    (addDocumentsRejected.ErrorBody json.Unmarshal partlyTypedBody).MeilisearchApiMessage
      = addDocumentsRejected.MeilisearchApiMessage ∧
    (addDocumentsRejected.ErrorBody json.Unmarshal partlyTypedBody).ResponseToString
      = partlyTypedBody ∧
    (({} : Error).ErrorBody json.Unmarshal partlyTypedBody).MeilisearchApiMessage
      = ⟨"", "", "", ""⟩ :=
  ⟨by decide, by decide,
    ErrorBody_unparsed json.Unmarshal addDocumentsRejected partlyTypedBody (by decide)⟩

/-- C6. For every `Error` held at address `e`, every error code `c` and every cause
`origin`, the call `e.WithErrCode(c, origin)` completes, returns the pointer `e`
itself, and leaves at `e` the value with `ErrCode = c`, `OriginError = origin` and
`rawMessage = c.rawMessage()`; with no cause argument it completes, returns `e`, and
leaves `ErrCode = c` and `rawMessage = c.rawMessage()`. -/
theorem WithErrCode_attaches (heap : Heap) (e : Ptr) (v : Error) (c : ErrCode)
    (origin : Option GoError) (hv : heap e = some v) :
    (∃ heap2 v2, Error.WithErrCodeAt heap e c (some [origin]) = some (heap2, e) ∧
      heap2 e = some v2 ∧ v.WithErrCode c (some [origin]) = some v2 ∧
      v2.ErrCode = c ∧ v2.OriginError = origin ∧ v2.rawMessage = c.rawMessage) ∧
    (∃ heap2 v2, Error.WithErrCodeAt heap e c none = some (heap2, e) ∧
      heap2 e = some v2 ∧ v.WithErrCode c none = some v2 ∧
      v2.ErrCode = c ∧ v2.rawMessage = c.rawMessage) := by
  constructor
  · refine ⟨Function.update heap e
        (some { v with OriginError := origin, rawMessage := c.rawMessage, ErrCode := c }),
      { v with OriginError := origin, rawMessage := c.rawMessage, ErrCode := c },
      ?_, ?_, rfl, rfl, rfl, rfl⟩
    · simp only [Error.WithErrCodeAt, hv, Error.WithErrCode]
    · simp
  · refine ⟨Function.update heap e (some { v with rawMessage := c.rawMessage, ErrCode := c }),
      { v with rawMessage := c.rawMessage, ErrCode := c }, ?_, ?_, rfl, rfl, rfl⟩
    · simp only [Error.WithErrCodeAt, hv, Error.WithErrCode]
    · simp

/-- Witness of `WithErrCode_attaches`: the rejected `AddDocuments` call held at
address 0, the code `MeilisearchCommunicationError` and the cause
`connection refused`. -/
theorem WithErrCode_attaches_witness :
    (∃ heap2 v2,
      Error.WithErrCodeAt (fun p => if p = 0 then some addDocumentsRejected else none) 0
        MeilisearchCommunicationError (some [some (GoError.mk "connection refused")])
        = some (heap2, 0) ∧
      heap2 0 = some v2 ∧
      addDocumentsRejected.WithErrCode MeilisearchCommunicationError
        (some [some (GoError.mk "connection refused")]) = some v2 ∧
      v2.ErrCode = MeilisearchCommunicationError ∧
      v2.OriginError = some (GoError.mk "connection refused") ∧
      v2.rawMessage = MeilisearchCommunicationError.rawMessage) ∧
    (∃ heap2 v2,
      Error.WithErrCodeAt (fun p => if p = 0 then some addDocumentsRejected else none) 0
        MeilisearchCommunicationError none = some (heap2, 0) ∧
      heap2 0 = some v2 ∧
      addDocumentsRejected.WithErrCode MeilisearchCommunicationError none = some v2 ∧
      v2.ErrCode = MeilisearchCommunicationError ∧
      v2.rawMessage = MeilisearchCommunicationError.rawMessage) :=
  WithErrCode_attaches (fun p => if p = 0 then some addDocumentsRejected else none) 0
    addDocumentsRejected MeilisearchCommunicationError
    (some (GoError.mk "connection refused")) rfl

/-- C7. `MeilisearchApiError` has the numeric value 4; for every `Error`,
`WithErrCode(MeilisearchApiError)` completes and sets `rawMessage` to exactly the
template string of the test; and the `Error` carrying the endpoint, method, function,
request, status 400 and expected set `[202]` of the test, after `ErrorBody` on the
response body (decoded by the reference decoder) and `WithErrCode(MeilisearchApiError)`,
equals the `expectedError` of the test field for field. -/
theorem missingPrimaryKey_expectedError :
    MeilisearchApiError = 4 ∧
    (∀ e : Error, ∃ e2, e.WithErrCode MeilisearchApiError none = some e2 ∧
      e2.rawMessage =
        "unaccepted status code found: ${statusCode} expected: ${statusCodeExpected}, MeilisearchApiError Message: ${message}, ErrorCode: ${errorCode}, ErrorType: ${errorType}, ErrorLink: ${errorLink} (path \"${method} ${endpoint}\" with method \"${function}\")") ∧
    (addDocumentsRejected.ErrorBody json.Unmarshal missingPrimaryKeyBody).WithErrCode
      MeilisearchApiError none = some expectedError := by
  refine ⟨by decide, ?_, by decide⟩
  intro e
  refine ⟨_, rfl, ?_⟩
  show MeilisearchApiError.rawMessage = _
  decide

/-- C8 (counterexample). The zero `Error` and the `Error` obtained from it by
`WithErrCode(ErrCodeUnknown)` agree on Endpoint, Method, Function, RequestToString,
ResponseToString, the payload, StatusCode, StatusCodeExpected and ErrCode, and are
not equal: their `rawMessage` fields differ. -/
theorem listed_fields_equal_not_equal :
    ({} : Error).WithErrCode ErrCodeUnknown none = some { rawMessage := rawStringCtx } ∧
    sameExportedContext ({} : Error) { rawMessage := rawStringCtx } ∧
    ({} : Error) ≠ { rawMessage := rawStringCtx } := by
  refine ⟨by decide, by decide, by decide⟩

/-- C8 (amended). Two `Error` values are equal if and only if every one of their
eleven fields is equal: the nine fields named by the claim, `rawMessage` and
`OriginError`. -/
theorem Error_eq_iff_all_fields (a b : Error) :
    a = b ↔ (sameExportedContext a b ∧ a.rawMessage = b.rawMessage ∧
      a.OriginError = b.OriginError) := by
  constructor
  · rintro rfl
    simp [sameExportedContext]
  · rintro ⟨⟨h1, h2, h3, h4, h5, h6, h7, h8, h9⟩, h10, h11⟩
    cases a
    cases b
    simp_all

/-- C9 (the code at the failing input). For a timed-out call on the index named
`${function}`, given the code `MeilisearchTimeoutError` by `WithErrCode`, `Error()`
with the map visited in source order does not contain the text built from its Method,
Endpoint and Function fields: the endpoint shown has the function name in place of
the text `${function}`. -/
theorem context_text_missing :
    ∃ e : Error, timeoutFailure.WithErrCode MeilisearchTimeoutError none = some e ∧
      contextText e =
        "(path \"POST /indexes/${function}/documents\" with method \"AddDocuments\")" ∧
      e.Error e.params =
        "MeilisearchTimeoutError (path \"POST /indexes/AddDocuments/documents\" with method \"AddDocuments\")" ∧
      ¬ strings.Contains (e.Error e.params) (contextText e) := by
  refine ⟨_, rfl, ?_, ?_, ?_⟩ <;> decide

/-- C10. For every response whose status code is outside the accepted set, the
executor returns an `Error` whose code is `MeilisearchApiError` if the body parses to
a payload with a non-empty message and `MeilisearchApiErrorWithoutMessage` otherwise,
whose `StatusCode` is the status code of the response and whose `StatusCodeExpected`
is the accepted set passed in. -/
theorem handleStatusCode_rejected (unmarshal : Unmarshaler) (internalError : Error)
    (acceptedStatusCodes : Slice Int) (statusCode : Int) (body : String)
    (h : statusCode ∉ acceptedStatusCodes.getD []) :
    ∃ e, handleStatusCode unmarshal internalError acceptedStatusCodes statusCode body
        = some e ∧
      e.StatusCode = statusCode ∧
      e.StatusCodeExpected = acceptedStatusCodes ∧
      (((unmarshal body {}).2 = none ∧ (unmarshal body {}).1.Message ≠ "") →
        e.ErrCode = MeilisearchApiError) ∧
      (¬ ((unmarshal body {}).2 = none ∧ (unmarshal body {}).1.Message ≠ "") →
        e.ErrCode = MeilisearchApiErrorWithoutMessage) := by
  unfold handleStatusCode
  rw [if_neg h]
  by_cases hp : (unmarshal body {}).2 = none ∧ (unmarshal body {}).1.Message ≠ ""
  · simp only [if_pos hp, Error.WithErrCode]
    refine ⟨_, rfl, ?_, ?_, fun _ => rfl, fun hn => absurd hp hn⟩
    · simp only [Error.ErrorBody]; split <;> rfl
    · simp only [Error.ErrorBody]; split <;> rfl
  · simp only [if_neg hp, Error.WithErrCode]
    refine ⟨_, rfl, ?_, ?_, fun hn => absurd hn hp, fun _ => rfl⟩
    · simp only [Error.ErrorBody]; split <;> rfl
    · simp only [Error.ErrorBody]; split <;> rfl

/-- Witness of `handleStatusCode_rejected`: status 400 against the accepted set
`[202]` with the response body of the missing-primary-key test, decoded by the
reference decoder. -/
theorem handleStatusCode_rejected_witness :
    (400 : Int) ∉ (some [202] : Slice Int).getD [] ∧
    ∃ e, handleStatusCode json.Unmarshal addDocumentsContext (some [202]) 400
        missingPrimaryKeyBody = some e ∧
      e.StatusCode = 400 ∧
      e.StatusCodeExpected = some [202] ∧
      (((json.Unmarshal missingPrimaryKeyBody {}).2 = none ∧
          (json.Unmarshal missingPrimaryKeyBody {}).1.Message ≠ "") →
        e.ErrCode = MeilisearchApiError) ∧
      (¬ ((json.Unmarshal missingPrimaryKeyBody {}).2 = none ∧
          (json.Unmarshal missingPrimaryKeyBody {}).1.Message ≠ "") →
        e.ErrCode = MeilisearchApiErrorWithoutMessage) :=
  ⟨by decide,
    handleStatusCode_rejected json.Unmarshal addDocumentsContext (some [202]) 400
      missingPrimaryKeyBody (by decide)⟩

/-- C12. `rawMessage` is a total function of the code. For each of the six codes
MarshalRequest, ResponseUnmarshalBody, MeilisearchApiError,
MeilisearchApiErrorWithoutMessage, MeilisearchTimeoutError and
MeilisearchCommunicationError it returns that code's own template, one space and the
context template; for `ErrCodeUnknown`, for the unassigned value 1 and for every other
integer it returns the context template alone. -/
theorem rawMessage_templates :
    ErrCodeMarshalRequest.rawMessage
      = "unable to marshal body from request: '${request}'" ++ " " ++ rawStringCtx ∧
    ErrCodeResponseUnmarshalBody.rawMessage
      = "unable to unmarshal body from response: '${response}' status code: ${statusCode}"
        ++ " " ++ rawStringCtx ∧
    MeilisearchApiError.rawMessage
      = "unaccepted status code found: ${statusCode} expected: ${statusCodeExpected}, MeilisearchApiError Message: ${message}, ErrorCode: ${errorCode}, ErrorType: ${errorType}, ErrorLink: ${errorLink}"
        ++ " " ++ rawStringCtx ∧
    MeilisearchApiErrorWithoutMessage.rawMessage
      = "unaccepted status code found: ${statusCode} expected: ${statusCodeExpected}, MeilisearchApiError Message: ${message}"
        ++ " " ++ rawStringCtx ∧
    MeilisearchTimeoutError.rawMessage = "MeilisearchTimeoutError" ++ " " ++ rawStringCtx ∧
    MeilisearchCommunicationError.rawMessage
      = "MeilisearchCommunicationError unable to execute request" ++ " " ++ rawStringCtx ∧
    rawStringCtx = "(path \"${method} ${endpoint}\" with method \"${function}\")" ∧
    ErrCodeUnknown.rawMessage = rawStringCtx ∧
    (1 : ErrCode).rawMessage = rawStringCtx ∧
    (∀ c : ErrCode, c ∉ [ErrCodeMarshalRequest, ErrCodeResponseUnmarshalBody,
        MeilisearchApiError, MeilisearchApiErrorWithoutMessage, MeilisearchTimeoutError,
        MeilisearchCommunicationError] → c.rawMessage = rawStringCtx) := by
  refine ⟨by decide, by decide, by decide, by decide, by decide, by decide, by decide,
    by decide, by decide, ?_⟩
  intro c hc
  simp only [List.mem_cons, List.mem_singleton, List.not_mem_nil, or_false, not_or] at hc
  obtain ⟨h1, h2, h3, h4, h5, h6⟩ := hc
  simp only [ErrCode.rawMessage, if_neg h1, if_neg h2, if_neg h3, if_neg h4, if_neg h5,
    if_neg h6]

/-- C16 (the code at the failing input). `WithErrCode` called with an explicitly
passed empty, non-nil list of causes does not complete: `errs != nil` holds and
`errs[0]` is out of range. -/
theorem WithErrCode_empty_causes_panics :
    ({} : Error).WithErrCode ErrCodeUnknown (some []) = none ∧
    ∀ (e : Error) (c : ErrCode), e.WithErrCode c (some []) = none :=
  ⟨rfl, fun _ _ => rfl⟩

/-- C17. The predicate `e.rawMessage = e.ErrCode.rawMessage()` holds after every
`WithErrCode` call that completes and after every sequence of later `ErrorBody` and
`WithErrCode` calls that complete, for every decoder; the `Error` then renders with
the template of its current `ErrCode`. The predicate does not hold for the zero
`Error`, whose `rawMessage` is empty. -/
theorem rawMessage_matches_ErrCode (unmarshal : Unmarshaler) (e e1 e2 : Error) (c : ErrCode)
    (errs : Slice (Option GoError)) (calls : List BuilderCall)
    (h1 : e.WithErrCode c errs = some e1) (h2 : applyCalls unmarshal e1 calls = some e2) :
    e1.rawMessage = e1.ErrCode.rawMessage ∧
    e2.rawMessage = e2.ErrCode.rawMessage ∧
    (∀ visited, e2.Error visited
      = ({ e2 with rawMessage := e2.ErrCode.rawMessage } : Error).Error visited) ∧
    ({} : Error).rawMessage = "" ∧
    ({} : Error).rawMessage ≠ ({} : Error).ErrCode.rawMessage := by
  have est : ∀ (a b : Error) (c : ErrCode) (errs : Slice (Option GoError)),
      a.WithErrCode c errs = some b → b.rawMessage = b.ErrCode.rawMessage := by
    intro a b c errs h
    unfold Error.WithErrCode at h
    split at h
    · exact absurd h (by simp)
    · injection h with h; subst h; rfl
    · injection h with h; subst h; rfl
  have pres : ∀ (calls : List BuilderCall) (a b : Error),
      a.rawMessage = a.ErrCode.rawMessage → applyCalls unmarshal a calls = some b →
      b.rawMessage = b.ErrCode.rawMessage := by
    intro calls
    induction calls with
    | nil =>
      intro a b ha h
      simp only [applyCalls, Option.some.injEq] at h
      subst h; exact ha
    | cons call calls ih =>
      intro a b ha h
      simp only [applyCalls] at h
      cases call with
      | withErrCode err errs =>
        simp only [BuilderCall.apply] at h
        cases hw : a.WithErrCode err errs with
        | none => rw [hw] at h; exact absurd h (by simp)
        | some a2 =>
          rw [hw] at h
          exact ih a2 b (est a a2 err errs hw) h
      | errorBody body =>
        simp only [BuilderCall.apply] at h
        refine ih _ b ?_ h
        simp only [Error.ErrorBody]
        split <;> exact ha
  have hinv1 := est e e1 c errs h1
  have hinv2 := pres calls e1 e2 hinv1 h2
  refine ⟨hinv1, hinv2, ?_, rfl, by decide⟩
  intro visited
  simp only [Error.Error, ← hinv2]

/-- Witness of `rawMessage_matches_ErrCode`: the rejected `AddDocuments` call is given
the code `MeilisearchApiErrorWithoutMessage`, then the body of the test is attached
and the code is changed to `MeilisearchApiError`. -/
theorem rawMessage_matches_ErrCode_witness :
    (addDocumentsRejected.WithErrCode MeilisearchApiErrorWithoutMessage none).isSome ∧
    applyCalls json.Unmarshal
      { addDocumentsRejected with
        rawMessage := MeilisearchApiErrorWithoutMessage.rawMessage,
        ErrCode := MeilisearchApiErrorWithoutMessage }
      [.errorBody missingPrimaryKeyBody, .withErrCode MeilisearchApiError none]
      = some expectedError ∧
    expectedError.rawMessage = expectedError.ErrCode.rawMessage :=
  ⟨by decide, by decide,
    (rawMessage_matches_ErrCode json.Unmarshal addDocumentsRejected
      { addDocumentsRejected with
        rawMessage := MeilisearchApiErrorWithoutMessage.rawMessage,
        ErrCode := MeilisearchApiErrorWithoutMessage }
      expectedError MeilisearchApiErrorWithoutMessage none
      [.errorBody missingPrimaryKeyBody, .withErrCode MeilisearchApiError none]
      rfl (by decide)).2.1⟩

/-- C18. A `WithErrCode` call that completes changes no field other than `ErrCode`,
`rawMessage` and `OriginError`, and it leaves `OriginError` alone when no cause is
passed, so a cause attached earlier survives; `ErrorBody` changes no field other than
`ResponseToString` and the payload. Endpoint, Method, Function, RequestToString,
StatusCode and StatusCodeExpected are unchanged by both. -/
theorem builder_calls_frame (unmarshal : Unmarshaler) (e e2 : Error) (c : ErrCode)
    (errs : Slice (Option GoError)) (body : String) (h : e.WithErrCode c errs = some e2) :
    e2 = { e with ErrCode := e2.ErrCode, rawMessage := e2.rawMessage,
                  OriginError := e2.OriginError } ∧
    (errs = none → e2.OriginError = e.OriginError) ∧
    (∃ e3, e.WithErrCode c none = some e3 ∧ e3.OriginError = e.OriginError) ∧
    e.ErrorBody unmarshal body
      = { e with ResponseToString := (e.ErrorBody unmarshal body).ResponseToString,
                 MeilisearchApiMessage :=
                   (e.ErrorBody unmarshal body).MeilisearchApiMessage } ∧
    (e2.Endpoint = e.Endpoint ∧ e2.Method = e.Method ∧ e2.Function = e.Function ∧
      e2.RequestToString = e.RequestToString ∧ e2.StatusCode = e.StatusCode ∧
      e2.StatusCodeExpected = e.StatusCodeExpected) ∧
    ((e.ErrorBody unmarshal body).Endpoint = e.Endpoint ∧
      (e.ErrorBody unmarshal body).Method = e.Method ∧
      (e.ErrorBody unmarshal body).Function = e.Function ∧
      (e.ErrorBody unmarshal body).RequestToString = e.RequestToString ∧
      (e.ErrorBody unmarshal body).StatusCode = e.StatusCode ∧
      (e.ErrorBody unmarshal body).StatusCodeExpected = e.StatusCodeExpected) := by
  have hb : e.ErrorBody unmarshal body
      = { e with ResponseToString := (e.ErrorBody unmarshal body).ResponseToString,
                 MeilisearchApiMessage :=
                   (e.ErrorBody unmarshal body).MeilisearchApiMessage } := by
    simp only [Error.ErrorBody]
    split <;> rfl
  have hb2 : (e.ErrorBody unmarshal body).Endpoint = e.Endpoint ∧
      (e.ErrorBody unmarshal body).Method = e.Method ∧
      (e.ErrorBody unmarshal body).Function = e.Function ∧
      (e.ErrorBody unmarshal body).RequestToString = e.RequestToString ∧
      (e.ErrorBody unmarshal body).StatusCode = e.StatusCode ∧
      (e.ErrorBody unmarshal body).StatusCodeExpected = e.StatusCodeExpected := by
    rw [hb]; exact ⟨rfl, rfl, rfl, rfl, rfl, rfl⟩
  unfold Error.WithErrCode at h
  split at h
  · exact absurd h (by simp)
  · injection h with h; subst h
    exact ⟨rfl, fun hn => absurd hn (by simp), ⟨_, rfl, rfl⟩, hb,
      ⟨rfl, rfl, rfl, rfl, rfl, rfl⟩, hb2⟩
  · injection h with h; subst h
    exact ⟨rfl, fun _ => rfl, ⟨_, rfl, rfl⟩, hb, ⟨rfl, rfl, rfl, rfl, rfl, rfl⟩, hb2⟩

/-- Witness of `builder_calls_frame`: the transport failure, whose cause is already
attached, is given the code `MeilisearchTimeoutError` without a cause, and the body of
the test is attached to it. -/
theorem builder_calls_frame_witness :
    communicationError.WithErrCode MeilisearchTimeoutError none
      = some { communicationError with
          rawMessage := MeilisearchTimeoutError.rawMessage,
          ErrCode := MeilisearchTimeoutError } ∧
    ({ communicationError with
          rawMessage := MeilisearchTimeoutError.rawMessage,
          ErrCode := MeilisearchTimeoutError } : Error).OriginError
      = some (GoError.mk "connection refused") ∧
    (communicationError.ErrorBody json.Unmarshal missingPrimaryKeyBody).Endpoint
      = "/indexes" :=
  have h := builder_calls_frame json.Unmarshal communicationError
    { communicationError with
      rawMessage := MeilisearchTimeoutError.rawMessage, ErrCode := MeilisearchTimeoutError }
    MeilisearchTimeoutError none missingPrimaryKeyBody rfl
  ⟨rfl, h.2.1 rfl, h.2.2.2.2.2.1⟩

/-- C19. The seven named `ErrCode` constants have pairwise distinct numeric values
(0, 2, 3, 4, 5, 6, 7) and pairwise distinct templates: `rawMessage` is injective on
them. -/
theorem named_codes_distinct :
    namedErrCodes = [0, 2, 3, 4, 5, 6, 7] ∧
    namedErrCodes.Nodup ∧
    (namedErrCodes.map ErrCode.rawMessage).Nodup ∧
    namedErrCodes.Pairwise (fun a b => a ≠ b ∧ a.rawMessage ≠ b.rawMessage) := by
  refine ⟨by decide, by decide, by decide, by decide⟩

/-- The polling loop started at poll `k` times out when the clock passes the timeout
`d` polls later and every poll made within the timeout sees a non-terminal status. -/
theorem WaitFor_times_out_from (fetch : Nat → Except Error OperationStatus)
    (elapsed : Nat → Nat) (timeout : Nat) (internalError : Error) :
    ∀ (d k fuel : Nat), timeout < elapsed (k + d) → d < fuel →
      (∀ j, elapsed j ≤ timeout → ∃ s, fetch j = .ok s ∧ s.isTerminal = false) →
      WaitFor fetch elapsed timeout internalError fuel k
        = some (none, some { internalError with
            rawMessage := MeilisearchTimeoutError.rawMessage,
            ErrCode := MeilisearchTimeoutError }) := by
  intro d
  induction d with
  | zero =>
    intro k fuel hk hf _
    obtain ⟨fuel, rfl⟩ := Nat.exists_eq_succ_of_ne_zero (Nat.pos_iff_ne_zero.1 hf)
    simp only [Nat.add_zero] at hk
    simp only [WaitFor, if_pos hk, Error.WithErrCode, Option.map_some']
  | succ d ih =>
    intro k fuel hk hf hpoll
    obtain ⟨fuel, rfl⟩ := Nat.exists_eq_succ_of_ne_zero (show fuel ≠ 0 by omega)
    by_cases hnow : timeout < elapsed k
    · simp only [WaitFor, if_pos hnow, Error.WithErrCode, Option.map_some']
    · obtain ⟨s, hs, hterm⟩ := hpoll k (by omega)
      simp only [WaitFor, if_neg hnow, hs, hterm]
      exact ih (k + 1) fuel (by rw [Nat.add_assoc, Nat.add_comm 1 d]; exact hk) (by omega)
        hpoll

/-- The polling loop started at poll `k` returns the terminal status seen `d` polls
later, with no error, when the polls before it are within the timeout and see
non-terminal statuses. -/
theorem WaitFor_returns_from (fetch : Nat → Except Error OperationStatus)
    (elapsed : Nat → Nat) (timeout : Nat) (internalError : Error) (final : OperationStatus)
    (hfinal : final.isTerminal = true) :
    ∀ (d k fuel : Nat), d < fuel →
      (∀ j, k ≤ j → j ≤ k + d → elapsed j ≤ timeout) →
      (∀ j, k ≤ j → j < k + d → ∃ s, fetch j = .ok s ∧ s.isTerminal = false) →
      fetch (k + d) = .ok final →
      WaitFor fetch elapsed timeout internalError fuel k = some (some final, none) := by
  intro d
  induction d with
  | zero =>
    intro k fuel hf hclock _ hlast
    obtain ⟨fuel, rfl⟩ := Nat.exists_eq_succ_of_ne_zero (Nat.pos_iff_ne_zero.1 hf)
    have hnow : ¬ timeout < elapsed k := by
      have := hclock k (Nat.le_refl k) (by omega); omega
    simp only [Nat.add_zero] at hlast
    simp only [WaitFor, if_neg hnow, hlast, hfinal, if_true]
  | succ d ih =>
    intro k fuel hf hclock hpoll hlast
    obtain ⟨fuel, rfl⟩ := Nat.exists_eq_succ_of_ne_zero (show fuel ≠ 0 by omega)
    have hnow : ¬ timeout < elapsed k := by
      have := hclock k (Nat.le_refl k) (by omega); omega
    obtain ⟨s, hs, hterm⟩ := hpoll k (Nat.le_refl k) (by omega)
    simp only [WaitFor, if_neg hnow, hs, hterm]
    refine ih (k + 1) fuel (by omega) ?_ ?_ ?_
    · intro j h1 h2; exact hclock j (by omega) (by omega)
    · intro j h1 h2; exact hpoll j (by omega) (by omega)
    · rw [Nat.add_assoc, Nat.add_comm 1 d]; exact hlast

/-- C11. Polling from the first poll with enough fuel for `n + 1` polls: if the clock
has passed the timeout by poll `n` and every poll made within the timeout sees a
non-terminal status, `WaitFor` returns an `Error` with code `MeilisearchTimeoutError`
and no status; if poll `n` and the polls before it are made within the timeout, the
polls before it see non-terminal statuses and poll `n` sees `Succeeded`, `WaitFor`
returns `Succeeded` with no error. -/
theorem WaitFor_contract (fetch : Nat → Except Error OperationStatus) (elapsed : Nat → Nat)
    (timeout : Nat) (internalError : Error) (n fuel : Nat) (hfuel : n < fuel) :
    (timeout < elapsed n →
      (∀ j, elapsed j ≤ timeout → ∃ s, fetch j = .ok s ∧ s.isTerminal = false) →
      ∃ e, WaitFor fetch elapsed timeout internalError fuel 0 = some (none, some e) ∧
        e.ErrCode = MeilisearchTimeoutError) ∧
    ((∀ j, j ≤ n → elapsed j ≤ timeout) →
      (∀ j, j < n → ∃ s, fetch j = .ok s ∧ s.isTerminal = false) →
      fetch n = .ok .Succeeded →
      WaitFor fetch elapsed timeout internalError fuel 0
        = some (some .Succeeded, none)) := by
  constructor
  · intro hn hpoll
    exact ⟨_, WaitFor_times_out_from fetch elapsed timeout internalError n 0 fuel
      (by rw [Nat.zero_add]; exact hn) hfuel hpoll, rfl⟩
  · intro hclock hpoll hlast
    exact WaitFor_returns_from fetch elapsed timeout internalError .Succeeded rfl n 0 fuel
      hfuel (fun j _ h => hclock j (by omega)) (fun j _ h => hpoll j (by omega))
      (by rw [Nat.zero_add]; exact hlast)

/-- Witness of `WaitFor_contract`, polling every 50 time units with a timeout of 5000:
an update that stays in `Processing` gives an `Error` with code
`MeilisearchTimeoutError` at poll 101, and an update that goes from `Enqueued` to
`Processing` to `Succeeded` is returned as `Succeeded` with no error at poll 3. -/
theorem WaitFor_contract_witness :
    (∃ e, WaitFor (fun _ => .ok .Processing) (fun k => 50 * k) 5000 waitContext 102 0
        = some (none, some e) ∧ e.ErrCode = MeilisearchTimeoutError) ∧
    WaitFor succeedingUpdate (fun k => 50 * k) 5000 waitContext 102 0
      = some (some .Succeeded, none) :=
  ⟨(WaitFor_contract (fun _ => .ok .Processing) (fun k => 50 * k) 5000 waitContext 101 102
      (by decide)).1 (by decide) (fun _ _ => ⟨.Processing, rfl, rfl⟩),
   (WaitFor_contract succeedingUpdate (fun k => 50 * k) 5000 waitContext 3 102
      (by decide)).2 (by intro j hj; omega)
      (by
        intro j hj
        have h : j = 0 ∨ j = 1 ∨ j = 2 := by omega
        rcases h with rfl | rfl | rfl
        · exact ⟨.Enqueued, rfl, rfl⟩
        · exact ⟨.Processing, rfl, rfl⟩
        · exact ⟨.Processing, rfl, rfl⟩)
      rfl⟩

/-! ### Sequential and simultaneous substitution

The loop of `strings.ReplaceAll` on a template cut at its placeholders. -/

theorem replaceLoop_zero_cons (old new : List Char) (c : Char) (s : List Char) :
    replaceLoop old new 0 (c :: s) =
      if old <+: c :: s then new ++ replaceLoop old new (old.length - 1) s
      else c :: replaceLoop old new 0 s := by
  rw [replaceLoop]

/-- Skipping `k` characters is dropping them. -/
theorem replaceLoop_skip (old new : List Char) :
    ∀ (k : Nat) (s : List Char), replaceLoop old new k s = replaceLoop old new 0 (s.drop k)
  | 0, s => by simp
  | k + 1, [] => by simp [replaceLoop]
  | k + 1, c :: s => by
    rw [replaceLoop, replaceLoop_skip old new k s]
    simp

/-- An occurrence of `old` at the start of the text is replaced by `new`. -/
theorem replaceLoop_match (old new t : List Char) (h : old ≠ []) :
    replaceLoop old new 0 (old ++ t) = new ++ replaceLoop old new 0 t := by
  cases old with
  | nil => exact absurd rfl h
  | cons o os =>
    have hp : (o :: os) <+: o :: (os ++ t) := List.prefix_append (o :: os) t
    rw [List.cons_append, replaceLoop_zero_cons, if_pos hp, replaceLoop_skip]
    simp

/-- A stretch of text in which no occurrence of `old` starts is copied. -/
theorem replaceLoop_pass (old new a t : List Char)
    (h : ∀ s, s <:+ a → s ≠ [] → ¬ old <+: s ++ t) :
    replaceLoop old new 0 (a ++ t) = a ++ replaceLoop old new 0 t := by
  induction a with
  | nil => rfl
  | cons c a ih =>
    have h0 := h (c :: a) (List.suffix_refl _) (by simp)
    rw [List.cons_append] at h0
    rw [List.cons_append, replaceLoop_zero_cons, if_neg h0,
      ih (fun s hs hne => h s (hs.trans (List.suffix_cons c a)) hne), List.cons_append]

/-- A placeholder is not the empty text. -/
theorem placeholder_ne_nil (key : String) : placeholder key ≠ [] := by
  simp [placeholder]

/-- A placeholder starts with a dollar sign. -/
theorem not_placeholder_of_head_ne (key : String) (c : Char) (s : List Char)
    (hc : c ≠ '$') : ¬ placeholder key <+: c :: s := by
  intro h
  rw [placeholder, List.cons_prefix_cons] at h
  exact hc h.1.symm

/-- No placeholder starts inside a text without a dollar sign. -/
theorem no_placeholder_in_literal (key : String) (a t : List Char) (ha : '$' ∉ a) :
    ∀ s, s <:+ a → s ≠ [] → ¬ placeholder key <+: s ++ t := by
  intro s hs hne
  cases s with
  | nil => exact absurd rfl hne
  | cons c s =>
    refine not_placeholder_of_head_ne key c (s ++ t) ?_
    intro hc
    exact ha (hs.subset (by rw [hc]; exact List.mem_cons_self _ _))

/-- No placeholder starts inside a value without the text `${` when what follows the
value does not start with an opening brace. -/
theorem no_placeholder_in_value (key : String) (v t : List Char)
    (hv : ¬ ['$', '\x7b'] <:+: v) (ht : t.head? ≠ some '\x7b') :
    ∀ s, s <:+ v → s ≠ [] → ¬ placeholder key <+: s ++ t := by
  intro s hs hne h
  cases s with
  | nil => exact absurd rfl hne
  | cons c s =>
    rw [placeholder, List.cons_append, List.cons_prefix_cons] at h
    obtain ⟨hc, h⟩ := h
    cases s with
    | nil =>
      cases t with
      | nil => simp at h
      | cons d t =>
        rw [List.nil_append, List.cons_prefix_cons] at h
        exact ht (by rw [← h.1]; rfl)
    | cons d s =>
      rw [List.cons_append, List.cons_prefix_cons] at h
      refine hv ?_
      have hpre : ['$', '\x7b'] <+: c :: d :: s := by
        rw [← hc, ← h.1]
        exact ⟨s, rfl⟩
      exact hpre.isInfix.trans hs.isInfix

/-- Two keys closed by the same character at the start of two texts are the same key. -/
theorem key_eq_of_prefix (x : Char) : ∀ (a b t : List Char),
    a ++ [x] <+: b ++ x :: t → x ∉ a → x ∉ b → a = b
  | [], [], _, _, _, _ => rfl
  | [], d :: b, t, h, _, hb => by
    rw [List.nil_append, List.cons_append, List.cons_prefix_cons] at h
    exact absurd (by rw [h.1]; exact List.mem_cons_self _ _) hb
  | c :: a, [], t, h, ha, _ => by
    rw [List.cons_append, List.nil_append, List.cons_prefix_cons] at h
    exact absurd (by rw [← h.1]; exact List.mem_cons_self _ _) ha
  | c :: a, d :: b, t, h, ha, hb => by
    rw [List.cons_append, List.cons_append, List.cons_prefix_cons] at h
    rw [h.1, key_eq_of_prefix x a b t h.2 (fun hm => ha (List.mem_cons_of_mem _ hm))
      (fun hm => hb (List.mem_cons_of_mem _ hm))]

/-- The placeholder of `key` does not start inside the placeholder of another key. -/
theorem no_placeholder_in_other (key other : String) (t : List Char) (hne : other ≠ key)
    (hkey : '\x7d' ∉ key.data) (hother : '\x7d' ∉ other.data) (hdollar : '$' ∉ other.data) :
    ∀ s, s <:+ placeholder other → s ≠ [] → ¬ placeholder key <+: s ++ t := by
  intro s hs hne2 h
  rw [placeholder, List.suffix_cons_iff] at hs
  rcases hs with rfl | hs
  · rw [placeholder, List.cons_append, List.cons_append, List.cons_prefix_cons,
      List.cons_prefix_cons, List.append_assoc, List.singleton_append] at h
    have := key_eq_of_prefix '\x7d' key.data other.data t h.2.2 hkey hother
    exact hne (String.ext this.symm)
  · cases s with
    | nil => exact absurd rfl hne2
    | cons c s =>
      refine not_placeholder_of_head_ne key c (s ++ t) ?_ h
      intro hc
      have hmem : c ∈ '\x7b' :: (other.data ++ ['\x7d']) :=
        hs.subset (List.mem_cons_self _ _)
      rw [hc] at hmem
      simp only [List.mem_cons, List.mem_append, List.mem_singleton, List.not_mem_nil,
        or_false] at hmem
      rcases hmem with h1 | h1 | h1
      · exact absurd h1 (by decide)
      · exact hdollar h1
      · exact absurd h1 (by decide)
/-- The pieces after the first are well cut. -/
theorem WellCut.tail {p : List Char × String} {pieces : List (List Char × String)}
    {last : List Char} (h : WellCut (p :: pieces) last) : WellCut pieces last :=
  ⟨fun q hq => h.1 q (List.mem_cons_of_mem _ hq), h.2⟩

/-- A rendered template does not start with an opening brace. -/
theorem render_head (filled : String → Option (List Char))
    (pieces : List (List Char × String)) (last : List Char) (h : WellCut pieces last) :
    (render filled pieces last).head? ≠ some '\x7b' := by
  cases pieces with
  | nil =>
    intro hh
    cases last with
    | nil => simp [render] at hh
    | cons c last =>
      simp only [render, List.head?_cons, Option.some.injEq] at hh
      exact h.2.2 (by rw [hh]; exact List.mem_cons_self _ _)
  | cons p pieces =>
    obtain ⟨lit, key⟩ := p
    have hp := h.1 (lit, key) (List.mem_cons_self _ _)
    intro hh
    cases lit with
    | nil => exact hp.1 rfl
    | cons c lit =>
      simp only [render, List.cons_append, List.head?_cons, Option.some.injEq] at hh
      exact hp.2.2.1 (by rw [hh]; exact List.mem_cons_self _ _)

/-- A key that has a value keeps it. -/
theorem fill_of_some (filled : String → Option (List Char)) (key : String) (new : List Char)
    (k : String) (v : List Char) (h : filled k = some v) : fill filled key new k = some v := by
  simp [fill, h]

/-- One step of `namedSprintf` on a rendered template: replacing the placeholder of
`key` by a value fills the places of `key` that have no value yet and changes nothing
else. -/
theorem replaceLoop_render (key : String) (new : List Char) (hkey : '\x7d' ∉ key.data)
    (last : List Char) :
    ∀ (pieces : List (List Char × String)) (filled : String → Option (List Char)),
      WellCut pieces last → CleanFilling filled →
      replaceLoop (placeholder key) new 0 (render filled pieces last)
        = render (fill filled key new) pieces last := by
  intro pieces
  induction pieces with
  | nil =>
    intro filled hw _
    have h := replaceLoop_pass (placeholder key) new last []
      (no_placeholder_in_literal key last [] hw.2.1)
    simpa [render, replaceLoop] using h
  | cons p pieces ih =>
    intro filled hw hc
    obtain ⟨lit, k⟩ := p
    have hp := hw.1 (lit, k) (List.mem_cons_self _ _)
    have hrest := ih filled hw.tail hc
    simp only [render]
    rw [replaceLoop_pass _ _ lit _ (no_placeholder_in_literal key lit _ hp.2.1)]
    congr 1
    cases hf : filled k with
    | some v =>
      have hslot : slotText filled k = v := by simp [slotText, hf]
      have hslot2 : slotText (fill filled key new) k = v := by
        simp [slotText, fill_of_some filled key new k v hf]
      rw [hslot, hslot2, replaceLoop_pass _ _ v _
        (no_placeholder_in_value key v _ (hc k v hf) (render_head filled pieces last hw.tail)),
        hrest]
    | none =>
      by_cases hk : k = key
      · subst hk
        have hslot : slotText filled k = placeholder k := by simp [slotText, hf]
        have hslot2 : slotText (fill filled k new) k = new := by
          simp [slotText, fill, hf]
        rw [hslot, hslot2, replaceLoop_match _ _ _ (placeholder_ne_nil k), hrest]
      · have hslot : slotText filled k = placeholder k := by simp [slotText, hf]
        have hslot2 : slotText (fill filled key new) k = placeholder k := by
          simp [slotText, fill, hf, hk]
        rw [hslot, hslot2, replaceLoop_pass _ _ (placeholder k) _
          (no_placeholder_in_other key k _ hk hkey hp.2.2.2.2 hp.2.2.2.1), hrest]

/-- Filling with a clean value keeps the filling clean. -/
theorem fill_clean (filled : String → Option (List Char)) (key : String) (new : List Char)
    (hc : CleanFilling filled) (hnew : ¬ ['$', '\x7b'] <:+: new) :
    CleanFilling (fill filled key new) := by
  intro k v hv
  cases hf : filled k with
  | some w =>
    rw [fill_of_some filled key new k w hf] at hv
    exact hc k v (by rw [hf, hv])
  | none =>
    by_cases hk : k = key
    · simp only [fill, hk, if_true] at hv
      rw [← hk, hf] at hv
      rw [← Option.some.inj hv]
      exact hnew
    · simp only [fill, hk, if_false] at hv
      exact hc k v hv

/-- The characters of the text that `namedSprintf` looks for. -/
theorem placeholder_data (key : String) :
    ("$\x7b" ++ key ++ "\x7d").data = placeholder key := by
  simp only [String.data_append, placeholder]
  rfl

/-- The loop of `namedSprintf` on the characters of the format. -/
theorem namedSprintf_data (visited : List (String × Value)) :
    ∀ format : String, (namedSprintf format visited).data
      = visited.foldl
          (fun s kv => replaceLoop (placeholder kv.1) (fmt.Sprintf_v kv.2).data 0 s)
          format.data := by
  induction visited with
  | nil => intro format; rfl
  | cons kv visited ih =>
    intro format
    have hstep : (strings.ReplaceAll format ("$\x7b" ++ kv.1 ++ "\x7d")
        (fmt.Sprintf_v kv.2)).data
        = replaceLoop (placeholder kv.1) (fmt.Sprintf_v kv.2).data 0 format.data := by
      simp only [strings.ReplaceAll, placeholder_data]
      rfl
    simp only [namedSprintf, List.foldl_cons] at ih ⊢
    rw [ih, hstep]

/-- The loop of `namedSprintf` on a rendered template, for clean values: the result is
the template rendered with the filling after the visit. -/
theorem foldl_replace_render (pieces : List (List Char × String)) (last : List Char)
    (hw : WellCut pieces last) :
    ∀ (visited : List (String × Value)) (filled : String → Option (List Char)),
      CleanFilling filled →
      (∀ kv ∈ visited, '\x7d' ∉ kv.1.data ∧ ¬ ['$', '\x7b'] <:+: (fmt.Sprintf_v kv.2).data) →
      visited.foldl
          (fun s kv => replaceLoop (placeholder kv.1) (fmt.Sprintf_v kv.2).data 0 s)
          (render filled pieces last)
        = render (fills visited filled) pieces last := by
  intro visited
  induction visited with
  | nil => intro filled _ _; rfl
  | cons kv visited ih =>
    intro filled hc hv
    have hkv := hv kv (List.mem_cons_self _ _)
    simp only [List.foldl_cons, fills]
    rw [replaceLoop_render kv.1 _ hkv.1 last pieces filled hw hc]
    exact ih _ (fill_clean filled kv.1 _ hc hkv.2)
      (fun q hq => hv q (List.mem_cons_of_mem _ hq))

/-- A key that has a value keeps it through the whole visit. -/
theorem fills_some : ∀ (visited : List (String × Value))
    (filled : String → Option (List Char)) (k : String) (v : List Char),
    filled k = some v → fills visited filled k = some v
  | [], _, _, _, h => h
  | kv :: visited, filled, k, v, h => by
    simp only [fills, List.foldl_cons]
    exact fills_some visited _ k v (fill_of_some filled kv.1 _ k v h)

/-- After the visit every key of the map has its value, whatever the order. -/
theorem fills_of_mem : ∀ (visited : List (String × Value))
    (filled : String → Option (List Char)) (k : String) (v : Value),
    (visited.map Prod.fst).Nodup → (k, v) ∈ visited → filled k = none →
    fills visited filled k = some (fmt.Sprintf_v v).data
  | [], _, _, _, _, hm, _ => absurd hm (List.not_mem_nil _)
  | kv :: visited, filled, k, v, hnd, hm, hf => by
    simp only [List.map_cons, List.nodup_cons] at hnd
    simp only [fills, List.foldl_cons]
    rcases List.mem_cons.1 hm with rfl | hm
    · exact fills_some visited _ _ _ (by simp [fill, hf])
    · refine fills_of_mem visited _ k v hnd.2 hm ?_
      have hne : k ≠ kv.1 := by
        intro h
        exact hnd.1 (h ▸ List.mem_map_of_mem Prod.fst hm)
      simp [fill, hne, hf]

/-- Rendering depends on the filling only at the keys of the pieces. -/
theorem render_congr (filled other : String → Option (List Char)) (last : List Char) :
    ∀ pieces : List (List Char × String), (∀ p ∈ pieces, filled p.2 = other p.2) →
      render filled pieces last = render other pieces last
  | [], _ => rfl
  | (lit, key) :: pieces, h => by
    have h1 : filled key = other key := h (lit, key) (List.mem_cons_self _ _)
    simp only [render, slotText, h1]
    rw [render_congr filled other last pieces (fun p hp => h p (List.mem_cons_of_mem _ hp))]
/-! ### The values that `Error.Error` prints -/

/-- A text without a dollar sign does not contain `${`. -/
theorem clean_of_no_dollar (v : List Char) (h : '$' ∉ v) : ¬ ['$', '\x7b'] <:+: v :=
  fun hi => h (hi.subset (List.mem_cons_self _ _))

/-- No decimal digit is a dollar sign. -/
theorem digitChar_ne_dollar : ∀ n, n < 10 → Nat.digitChar n ≠ '$' := by
  decide

/-- The digits of a number in base ten hold no dollar sign. -/
theorem toDigitsCore_no_dollar : ∀ (fuel n : Nat) (ds : List Char),
    '$' ∉ ds → '$' ∉ Nat.toDigitsCore 10 fuel n ds
  | 0, _, ds, h => by simpa [Nat.toDigitsCore] using h
  | fuel + 1, n, ds, h => by
    have hd : '$' ∉ Nat.digitChar (n % 10) :: ds := by
      intro hm
      rcases List.mem_cons.1 hm with h1 | h1
      · exact digitChar_ne_dollar _ (Nat.mod_lt n (by decide)) h1.symm
      · exact h h1
    rw [Nat.toDigitsCore]
    split
    · exact hd
    · exact toDigitsCore_no_dollar fuel _ _ hd

/-- The decimal text of a natural number holds no dollar sign. -/
theorem Nat_repr_no_dollar (n : Nat) : '$' ∉ (Nat.repr n).data := by
  show '$' ∉ Nat.toDigitsCore 10 (n + 1) n []
  exact toDigitsCore_no_dollar _ _ _ (List.not_mem_nil _)

/-- The decimal text of an `int` holds no dollar sign. -/
theorem Int_repr_no_dollar (n : Int) : '$' ∉ n.repr.data := by
  cases n with
  | ofNat m => exact Nat_repr_no_dollar m
  | negSucc m =>
    show '$' ∉ ("-" ++ Nat.repr (Nat.succ m)).data
    rw [String.data_append]
    intro h
    rcases List.mem_append.1 h with h1 | h1
    · exact absurd h1 (by decide)
    · exact Nat_repr_no_dollar _ h1

/-- The loop of `String.intercalate` adds no dollar sign. -/
theorem intercalate_go_no_dollar (sep : String) (hsep : '$' ∉ sep.data) :
    ∀ (strs : List String) (acc : String), '$' ∉ acc.data → (∀ s ∈ strs, '$' ∉ s.data) →
      '$' ∉ (String.intercalate.go acc sep strs).data
  | [], acc, hacc, _ => by simpa [String.intercalate.go] using hacc
  | s :: strs, acc, hacc, hs => by
    rw [String.intercalate.go]
    refine intercalate_go_no_dollar sep hsep strs _ ?_
      (fun t ht => hs t (List.mem_cons_of_mem _ ht))
    rw [String.data_append, String.data_append]
    intro h
    rcases List.mem_append.1 h with h1 | h1
    · rcases List.mem_append.1 h1 with h2 | h2
      · exact hacc h2
      · exact hsep h2
    · exact hs s (List.mem_cons_self _ _) h1

/-- Texts without a dollar sign joined by a separator without one hold none. -/
theorem intercalate_no_dollar (sep : String) (hsep : '$' ∉ sep.data) (strs : List String)
    (hs : ∀ s ∈ strs, '$' ∉ s.data) : '$' ∉ (sep.intercalate strs).data := by
  cases strs with
  | nil => simp [String.intercalate]
  | cons s strs =>
    rw [String.intercalate]
    exact intercalate_go_no_dollar sep hsep strs s (hs s (List.mem_cons_self _ _))
      (fun t ht => hs t (List.mem_cons_of_mem _ ht))

/-- The text printed for a `[]int` holds no dollar sign. -/
theorem Sprintf_ints_no_dollar (xs : Slice Int) : '$' ∉ (fmt.Sprintf_v (.ints xs)).data := by
  simp only [fmt.Sprintf_v, String.data_append]
  intro h
  rcases List.mem_append.1 h with h1 | h1
  · rcases List.mem_append.1 h1 with h2 | h2
    · exact absurd h2 (by decide)
    · refine intercalate_no_dollar " " (by decide) _ ?_ h2
      intro s hs
      obtain ⟨n, _, rfl⟩ := List.mem_map.1 hs
      exact Int_repr_no_dollar n
  · exact absurd h1 (by decide)

/-- The keys of the map hold no closing brace and, for an `Error` with clean fields,
no formatted value contains the text `${`. -/
theorem params_clean (e : Error) (h : CleanFields e) :
    ∀ kv ∈ e.params, '\x7d' ∉ kv.1.data ∧ ¬ ['$', '\x7b'] <:+: (fmt.Sprintf_v kv.2).data := by
  obtain ⟨h1, h2, h3, h4, h5, h6, h7, h8, h9⟩ := h
  intro kv hkv
  simp only [Error.params, List.mem_cons, List.mem_singleton, List.not_mem_nil,
    or_false] at hkv
  rcases hkv with rfl | rfl | rfl | rfl | rfl | rfl | rfl | rfl | rfl | rfl | rfl
  · exact ⟨show '\x7d' ∉ "endpoint".data by decide, h1⟩
  · exact ⟨show '\x7d' ∉ "method".data by decide, h2⟩
  · exact ⟨show '\x7d' ∉ "function".data by decide, h3⟩
  · exact ⟨show '\x7d' ∉ "request".data by decide, h4⟩
  · exact ⟨show '\x7d' ∉ "response".data by decide, h5⟩
  · exact ⟨show '\x7d' ∉ "statusCodeExpected".data by decide, clean_of_no_dollar _ (Sprintf_ints_no_dollar _)⟩
  · exact ⟨show '\x7d' ∉ "statusCode".data by decide, clean_of_no_dollar _ (Int_repr_no_dollar _)⟩
  · exact ⟨show '\x7d' ∉ "message".data by decide, h6⟩
  · exact ⟨show '\x7d' ∉ "errorCode".data by decide, h7⟩
  · exact ⟨show '\x7d' ∉ "errorType".data by decide, h8⟩
  · exact ⟨show '\x7d' ∉ "errorLink".data by decide, h9⟩

/-- Every key of the map has its formatted value in `valueOf`. -/
theorem params_valueOf (e : Error) :
    ∀ k ∈ paramKeys, ∃ v, (k, v) ∈ e.params ∧ valueOf e.params k = some (fmt.Sprintf_v v).data := by
  intro k hk
  simp only [paramKeys, List.mem_cons, List.mem_singleton, List.not_mem_nil, or_false] at hk
  rcases hk with rfl | rfl | rfl | rfl | rfl | rfl | rfl | rfl | rfl | rfl | rfl
  · exact ⟨.str e.Endpoint, by simp [Error.params], rfl⟩
  · exact ⟨.str e.Method, by simp [Error.params], rfl⟩
  · exact ⟨.str e.Function, by simp [Error.params], rfl⟩
  · exact ⟨.str e.RequestToString, by simp [Error.params], rfl⟩
  · exact ⟨.str e.ResponseToString, by simp [Error.params], rfl⟩
  · exact ⟨.ints e.StatusCodeExpected, by simp [Error.params], rfl⟩
  · exact ⟨.int e.StatusCode, by simp [Error.params], rfl⟩
  · exact ⟨.str e.MeilisearchApiMessage.Message, by simp [Error.params], rfl⟩
  · exact ⟨.str e.MeilisearchApiMessage.ErrorCode, by simp [Error.params], rfl⟩
  · exact ⟨.str e.MeilisearchApiMessage.ErrorType, by simp [Error.params], rfl⟩
  · exact ⟨.str e.MeilisearchApiMessage.ErrorLink, by simp [Error.params], rfl⟩

/-! ### The templates of `rawMessage` -/

/-- Every template is the template of one of the seven named codes. -/
theorem rawMessage_named (c : ErrCode) : ∃ d ∈ namedErrCodes, c.rawMessage = d.rawMessage := by
  by_cases h1 : c = ErrCodeMarshalRequest
  · exact ⟨ErrCodeMarshalRequest, by simp [namedErrCodes], by rw [h1]⟩
  by_cases h2 : c = ErrCodeResponseUnmarshalBody
  · exact ⟨ErrCodeResponseUnmarshalBody, by simp [namedErrCodes], by rw [h2]⟩
  by_cases h3 : c = MeilisearchApiError
  · exact ⟨MeilisearchApiError, by simp [namedErrCodes], by rw [h3]⟩
  by_cases h4 : c = MeilisearchApiErrorWithoutMessage
  · exact ⟨MeilisearchApiErrorWithoutMessage, by simp [namedErrCodes], by rw [h4]⟩
  by_cases h5 : c = MeilisearchTimeoutError
  · exact ⟨MeilisearchTimeoutError, by simp [namedErrCodes], by rw [h5]⟩
  by_cases h6 : c = MeilisearchCommunicationError
  · exact ⟨MeilisearchCommunicationError, by simp [namedErrCodes], by rw [h6]⟩
  refine ⟨ErrCodeUnknown, by simp [namedErrCodes], ?_⟩
  simp only [ErrCode.rawMessage, if_neg h1, if_neg h2, if_neg h3, if_neg h4, if_neg h5,
    if_neg h6]
  decide

/-- Every template of `rawMessage` is well cut, is what its pieces render to when no
key has a value, and uses only keys of the map that `Error.Error` builds. -/
theorem rawMessage_cut (c : ErrCode) :
    WellCut (cut c.rawMessage).1 (cut c.rawMessage).2 ∧
    render (fun _ => none) (cut c.rawMessage).1 (cut c.rawMessage).2 = c.rawMessage.data ∧
    ∀ p ∈ (cut c.rawMessage).1, p.2 ∈ paramKeys := by
  have hall : ∀ d ∈ namedErrCodes,
      WellCut (cut d.rawMessage).1 (cut d.rawMessage).2 ∧
      render (fun _ => none) (cut d.rawMessage).1 (cut d.rawMessage).2 = d.rawMessage.data ∧
      ∀ p ∈ (cut d.rawMessage).1, p.2 ∈ paramKeys := by decide
  obtain ⟨d, hd, hcd⟩ := rawMessage_named c
  rw [hcd]
  exact hall d hd

/-- Sequential substitution on a template of `rawMessage`, for an `Error` with clean
fields and any order of the visit: the template rendered with every key filled by its
formatted value. -/
theorem namedSprintf_rawMessage (c : ErrCode) (e : Error) (visited : List (String × Value))
    (hclean : CleanFields e) (hv : IsRangeOrder e.params visited) :
    (namedSprintf c.rawMessage visited).data
      = render (valueOf e.params) (cut c.rawMessage).1 (cut c.rawMessage).2 := by
  obtain ⟨hw, hr, hk⟩ := rawMessage_cut c
  have hperm : visited.Perm e.params := hv
  have hnd : (visited.map Prod.fst).Nodup := by
    have hp := (hperm.map Prod.fst).nodup_iff
    rw [hp]
    show paramKeys.Nodup
    decide
  rw [namedSprintf_data, ← hr,
    foldl_replace_render _ _ hw visited (fun _ => none) (fun _ _ h => absurd h (by simp))
      (fun kv hkv => params_clean e hclean kv (hperm.mem_iff.1 hkv))]
  refine render_congr _ _ _ _ ?_
  intro p hp
  obtain ⟨v, hmem, hval⟩ := params_valueOf e p.2 (hk p hp)
  rw [hval]
  exact fills_of_mem visited _ p.2 v hnd (hperm.mem_iff.2 hmem) rfl
/-- Simultaneous substitution on a template of `rawMessage`: the template rendered
with every key filled by its formatted value. -/
theorem substituteAtOnce_rawMessage (c : ErrCode) (e : Error) :
    (substituteAtOnce c.rawMessage e.params).data
      = render (valueOf e.params) (cut c.rawMessage).1 (cut c.rawMessage).2 := by
  obtain ⟨d, hd, hcd⟩ := rawMessage_named c
  rw [hcd]
  simp only [namedErrCodes, List.mem_cons, List.mem_singleton, List.not_mem_nil,
    or_false] at hd
  rcases hd with rfl | rfl | rfl | rfl | rfl | rfl | rfl <;> rfl

/-- The template that `WithErrCode` stores. -/
theorem WithErrCode_rawMessage (e e2 : Error) (c : ErrCode) (errs : Slice (Option GoError))
    (h : e.WithErrCode c errs = some e2) : e2.rawMessage = c.rawMessage := by
  unfold Error.WithErrCode at h
  split at h
  · exact absurd h (by simp)
  · injection h with h; subst h; rfl
  · injection h with h; subst h; rfl

/-- A literal text followed by a text without `${` is without `${`. -/
theorem clean_literal_append : ∀ (a b : List Char), '$' ∉ a → ¬ ['$', '\x7b'] <:+: b →
    ¬ ['$', '\x7b'] <:+: a ++ b
  | [], _, _, hb => by simpa using hb
  | c :: a, b, ha, hb => by
    rw [List.cons_append, List.infix_cons_iff]
    rintro (h | h)
    · rw [List.cons_prefix_cons] at h
      exact ha (by rw [h.1]; exact List.mem_cons_self _ _)
    · exact clean_literal_append a b (fun hm => ha (List.mem_cons_of_mem _ hm)) hb h

/-- A value without `${` followed by a text without `${` that does not start with an
opening brace is without `${`. -/
theorem clean_value_append : ∀ (v r : List Char), ¬ ['$', '\x7b'] <:+: v →
    ¬ ['$', '\x7b'] <:+: r → r.head? ≠ some '\x7b' → ¬ ['$', '\x7b'] <:+: v ++ r
  | [], _, _, hr, _ => by simpa using hr
  | c :: v, r, hv, hr, hh => by
    rw [List.cons_append, List.infix_cons_iff]
    rintro (h | h)
    · rw [List.cons_prefix_cons] at h
      obtain ⟨hc, h⟩ := h
      cases v with
      | nil =>
        cases r with
        | nil => simp at h
        | cons d r =>
          rw [List.nil_append, List.cons_prefix_cons] at h
          exact hh (by rw [← h.1]; rfl)
      | cons d v =>
        rw [List.cons_append, List.cons_prefix_cons] at h
        refine hv ?_
        have hpre : ['$', '\x7b'] <+: c :: d :: v := by
          rw [← hc, ← h.1]
          exact ⟨v, rfl⟩
        exact hpre.isInfix
    · exact clean_value_append v r
        (fun hi => hv (hi.trans (List.suffix_cons c v).isInfix)) hr hh h

/-- A template rendered with a clean value for every key contains no `${`. -/
theorem render_clean (filled : String → Option (List Char)) (last : List Char) :
    ∀ pieces : List (List Char × String), WellCut pieces last →
      (∀ p ∈ pieces, ∃ v, filled p.2 = some v ∧ ¬ ['$', '\x7b'] <:+: v) →
      ¬ ['$', '\x7b'] <:+: render filled pieces last
  | [], hw, _ => clean_of_no_dollar last hw.2.1
  | (lit, key) :: pieces, hw, hf => by
    obtain ⟨v, hv, hclean⟩ := hf (lit, key) (List.mem_cons_self _ _)
    have hp := hw.1 (lit, key) (List.mem_cons_self _ _)
    have hrest := render_clean filled last pieces hw.tail
      (fun p hp => hf p (List.mem_cons_of_mem _ hp))
    have hslot : slotText filled key = v := by simp [slotText, hv]
    simp only [render, hslot]
    exact clean_literal_append lit _ hp.2.1
      (clean_value_append v _ hclean hrest (render_head filled pieces last hw.tail))

/-- C13. For every `Error` given the code `MeilisearchApiError` by `WithErrCode`, with
no cause and with none of its nine printed string fields containing `${`, and for
every order in which the map is visited, `Error()` is the text
`unaccepted status code found: S expected: X, MeilisearchApiError Message: M,
ErrorCode: C, ErrorType: T, ErrorLink: L (path "METHOD ENDPOINT" with method
"FUNCTION")`, where `S` is `StatusCode` in decimal, `X` is `StatusCodeExpected` as its
decimal elements separated by single spaces inside square brackets, and `M`, `C`,
`T`, `L` are the four payload fields. -/
theorem Error_MeilisearchApiError (e e2 : Error) (errs : Slice (Option GoError))
    (visited : List (String × Value))
    (hcode : e.WithErrCode MeilisearchApiError errs = some e2)
    (hcause : e2.OriginError = none) (hclean : CleanFields e2)
    (hv : IsRangeOrder e2.params visited) :
    e2.Error visited =
      "unaccepted status code found: " ++ e2.StatusCode.repr ++ " expected: " ++
      ("[" ++ " ".intercalate ((e2.StatusCodeExpected.getD []).map Int.repr) ++ "]") ++
      ", MeilisearchApiError Message: " ++ e2.MeilisearchApiMessage.Message ++
      ", ErrorCode: " ++ e2.MeilisearchApiMessage.ErrorCode ++
      ", ErrorType: " ++ e2.MeilisearchApiMessage.ErrorType ++
      ", ErrorLink: " ++ e2.MeilisearchApiMessage.ErrorLink ++
      " (path \"" ++ e2.Method ++ " " ++ e2.Endpoint ++ "\" with method \"" ++
      e2.Function ++ "\")" := by
  have hraw := WithErrCode_rawMessage e e2 _ errs hcode
  apply String.ext
  simp only [Error.Error, hcause, hraw]
  rw [namedSprintf_rawMessage MeilisearchApiError e2 visited hclean hv,
    show ("[" ++ " ".intercalate ((e2.StatusCodeExpected.getD []).map Int.repr) ++ "]")
      = fmt.Sprintf_v (.ints e2.StatusCodeExpected) from rfl]
  simp only [String.data_append, List.append_assoc]
  rfl
/-- Witness of `Error_MeilisearchApiError`: the `expectedError` of the test, with the
map visited in the reverse of the source order. -/
theorem Error_MeilisearchApiError_witness :
    expectedError.WithErrCode MeilisearchApiError none = some expectedError ∧
    expectedError.OriginError = none ∧ CleanFields expectedError ∧
    IsRangeOrder expectedError.params expectedError.params.reverse ∧
    expectedError.Error expectedError.params.reverse =
      "unaccepted status code found: 400 expected: [202], MeilisearchApiError Message: schema cannot be built without a primary key, ErrorCode: missing_primary_key, ErrorType: invalid_request_error, ErrorLink: https://docs.meilisearch.com/errors#missing_primary_key (path \"POST /indexes/6/documents\" with method \"AddDocuments\")" :=
  ⟨by decide, rfl, by decide, by decide,
    (Error_MeilisearchApiError expectedError expectedError none expectedError.params.reverse
      (by decide) rfl (by decide) (by decide)).trans (by decide)⟩

/-- C14. For every template returned by `rawMessage`, every `Error` none of whose nine
printed string fields contains `${`, and every two orders in which the eleven keys
can be visited, `namedSprintf` returns the same string, and that string is the
template with every placeholder replaced at once by the formatted value of its key.
No placeholder of the map is a part of another. -/
theorem namedSprintf_sequential_eq_simultaneous (c : ErrCode) (e : Error)
    (visited visited2 : List (String × Value)) (hclean : CleanFields e)
    (hv : IsRangeOrder e.params visited) (hv2 : IsRangeOrder e.params visited2) :
    namedSprintf c.rawMessage visited = namedSprintf c.rawMessage visited2 ∧
    namedSprintf c.rawMessage visited = substituteAtOnce c.rawMessage e.params ∧
    (∀ k1 ∈ paramKeys, ∀ k2 ∈ paramKeys, placeholder k1 <:+: placeholder k2 → k1 = k2) := by
  refine ⟨String.ext ?_, String.ext ?_, by decide⟩
  · rw [namedSprintf_rawMessage c e visited hclean hv,
      namedSprintf_rawMessage c e visited2 hclean hv2]
  · rw [namedSprintf_rawMessage c e visited hclean hv, substituteAtOnce_rawMessage]

/-- Witness of `namedSprintf_sequential_eq_simultaneous`: the template of
`MeilisearchApiError` and the fields of the test's `expectedError`, visited in source
order and in the reverse order. -/
theorem namedSprintf_sequential_eq_simultaneous_witness :
    CleanFields expectedError ∧
    IsRangeOrder expectedError.params expectedError.params ∧
    IsRangeOrder expectedError.params expectedError.params.reverse ∧
    namedSprintf MeilisearchApiError.rawMessage expectedError.params
      = namedSprintf MeilisearchApiError.rawMessage expectedError.params.reverse ∧
    namedSprintf MeilisearchApiError.rawMessage expectedError.params
      = substituteAtOnce MeilisearchApiError.rawMessage expectedError.params ∧
    substituteAtOnce MeilisearchApiError.rawMessage expectedError.params =
      "unaccepted status code found: 400 expected: [202], MeilisearchApiError Message: schema cannot be built without a primary key, ErrorCode: missing_primary_key, ErrorType: invalid_request_error, ErrorLink: https://docs.meilisearch.com/errors#missing_primary_key (path \"POST /indexes/6/documents\" with method \"AddDocuments\")" :=
  have h := namedSprintf_sequential_eq_simultaneous MeilisearchApiError expectedError
    expectedError.params expectedError.params.reverse (by decide) (by decide) (by decide)
  ⟨by decide, by decide, by decide, h.1, h.2.1, by decide⟩

/-- C15. For every error code `c`, every `Error` given the code `c` by `WithErrCode`,
with no cause and with none of its nine printed string fields containing `${`, and
every order in which the map is visited, the string returned by `Error()` contains no
occurrence of `${`: every placeholder of the template has been replaced. -/
theorem Error_no_placeholder_left (e e2 : Error) (c : ErrCode)
    (errs : Slice (Option GoError)) (visited : List (String × Value))
    (hcode : e.WithErrCode c errs = some e2) (hcause : e2.OriginError = none)
    (hclean : CleanFields e2) (hv : IsRangeOrder e2.params visited) :
    ¬ strings.Contains (e2.Error visited) "$\x7b" := by
  have hraw := WithErrCode_rawMessage e e2 c errs hcode
  obtain ⟨hw, _, hk⟩ := rawMessage_cut c
  have hperm : visited.Perm e2.params := hv
  simp only [strings.Contains, Error.Error, hcause, hraw]
  rw [namedSprintf_rawMessage c e2 visited hclean hv]
  refine render_clean _ _ _ hw ?_
  intro p hp
  obtain ⟨v, hmem, hval⟩ := params_valueOf e2 p.2 (hk p hp)
  exact ⟨_, hval, (params_clean e2 hclean _ hmem).2⟩

/-- Witness of `Error_no_placeholder_left`: the `expectedError` of the test, with the
map visited in source order. -/
theorem Error_no_placeholder_left_witness :
    expectedError.WithErrCode MeilisearchApiError none = some expectedError ∧
    expectedError.OriginError = none ∧ CleanFields expectedError ∧
    IsRangeOrder expectedError.params expectedError.params ∧
    ¬ strings.Contains (expectedError.Error expectedError.params) "$\x7b" :=
  ⟨by decide, rfl, by decide, by decide,
    Error_no_placeholder_left expectedError expectedError MeilisearchApiError none
      expectedError.params (by decide) rfl (by decide) (by decide)⟩

end Meilisearch
